import Mathlib

/-!
# Verification of the `microtastic` reactive core (`src/reactive.js`)

This file gives a shallow embedding of the reactive-signal core of the
repository — the `html` tagged-template helper, the synchronous signal /
computed-signal / batch machinery, and the asynchronous computed signal —
and proves the frozen specification claims about it.

The synchronous machinery (`Signals.create`, `Signals.computed`,
`Signals.effect`/`batch`) is embedded as a fuel-indexed interpreter over an
explicit `World` state: JavaScript closures over mutable module state
(`_activeContext`, `_batchPending`, `_batchQueue`, `_batchWrappers`,
`_computeStack`) become fields of `World`, user callbacks are
defunctionalised (a subscriber callback is identified by an id and its
invocations are recorded in a log, exactly like the counters the
repository's own tests close over), and compute functions are embedded as a
small expression language `Expr` covering the reads the claims exercise
(`sig.get()`, `sig.peek()`, conditionals, numeric addition).  Signals,
computed nodes and once-wrappers live in list-backed stores; an object's id
is its index, assigned at creation in program order.

The asynchronous computed signal is embedded separately as a transition
system over `AsyncWorld`: following `src/reactive.js` lines 439-521, a run
is split at its single `await` into a synchronous start (`startRun`, lines
440-460) and a settle step (`settleRun`, lines 462-520) that receives the
outcome of the user promise together with the dependency reads its
tracking context collected.
-/

set_option maxRecDepth 10000

namespace Microtastic

/-! ## Values

JavaScript values, restricted to the shapes the claims exercise. -/

inductive Val where
  | undef : Val
  | vbool : Bool → Val
  | vint : Int → Val
  | vstr : String → Val
deriving DecidableEq, Repr

/-- JavaScript truthiness of a `Val` (used by the conditional in a compute
function body). -/
def Val.truthy : Val → Bool
  | .undef => false
  | .vbool b => b
  | .vint n => n != 0
  | .vstr s => s != ""

/-! ## `html` tagged template (`src/reactive.js` lines 30-40)

Interpolated plain values are escaped by assigning them to a detached
element's `textContent` and reading back `innerHTML` (lines 36-38).  That
round-trip is the HTML fragment-serialisation of a text node: it rewrites
`&` to `&amp;`, `<` to `&lt;`, `>` to `&gt;` and U+00A0 to `&nbsp;`, and
leaves every other character — in particular both quote characters —
unchanged.  (The file's own doc example at lines 26-28 shows apostrophes
surviving the round-trip unescaped.)  `escChar`/`escapeText` embed that
serialiser. -/

def escChar (c : Char) : String :=
  if c = '&' then "&amp;"
  else if c = '<' then "&lt;"
  else if c = '>' then "&gt;"
  else if c = Char.ofNat 160 then "&nbsp;"
  else String.singleton c

def escapeText (s : String) : String :=
  String.mk (s.data.flatMap (fun c => (escChar c).data))

/-- An interpolated value, as `html` discriminates them (lines 33-38):
`null`/`undefined` values are dropped, values with a truthy `__safe` field
contribute their `.content` verbatim, and anything else is stringified and
escaped.  `plain s` carries the result of `String(v)`. -/
inductive HVal where
  | vnull : HVal
  | safe : String → HVal
  | plain : String → HVal
deriving DecidableEq, Repr

/-- The `strings.reduce` loop of `html` (lines 32-39): the i-th string part
is appended, then the i-th value (when present) is appended — dropped if
null, verbatim if safe, escaped otherwise. -/
def htmlContent : List String → List HVal → String
  | [], _ => ""
  | s :: ss, [] => s ++ htmlContent ss []
  | s :: ss, v :: vs =>
    match v with
    | .vnull => s ++ htmlContent ss vs
    | .safe c => s ++ c ++ htmlContent ss vs
    | .plain p => s ++ escapeText p ++ htmlContent ss vs

/-! ## The synchronous signal graph (`src/reactive.js` lines 209-575)

Module-level mutable state (`_activeContext`, `_batchPending`, `_batchQueue`,
`_batchWrappers`, `_computeStack`) and every signal's and computed node's
closure state become fields of a `World`.  Subscriber callbacks are
defunctionalised as `Sub`; invoking an application callback appends to
`World.log`, mirroring the counters the repository's tests close over.
Compute-function bodies are embedded as `Expr`.  The interpreter is
fuel-indexed: every operational function consumes one unit of fuel per call,
and exhaustion is reported as the artificial error `RErr.fuel` (the
JavaScript engine has no such bound; all theorems either hold for every
fuel or are stated about runs that complete). -/

abbrev SigId := Nat
abbrev NodeId := Nat
abbrev FnId := Nat
abbrev OnceId := Nat

/-- A member of a signal's subscriber set: an application callback, the
`scheduler` closure of a computed node (line 399), or the `wrapper` closure
created by `once` (line 302). -/
inductive Sub where
  | user : FnId → Sub
  | sched : NodeId → Sub
  | onceW : OnceId → Sub
deriving DecidableEq, Repr

/-- The closure state of one `Signals.create` signal (lines 255-327):
its current `value`, its `subs` set (insertion-ordered, deduplicated) and
its optional debug `name`.  The default equality `(a, b) => a === b`
(line 255) is used throughout, embedded as equality of `Val`. -/
structure SigState where
  value : Val
  subs : List Sub
  name : Option String
deriving Repr

/-- A compute-function body: the reads and operations the claims exercise.
`get s` is `s.get()` (tracked, line 258), `peek s` is `s.peek()` (untracked,
line 262), `cond` is a JavaScript conditional on truthiness, `add` is
numeric addition (operands evaluated left to right). -/
inductive Expr where
  | lit : Val → Expr
  | get : SigId → Expr
  | peek : SigId → Expr
  | cond : Expr → Expr → Expr → Expr
  | add : Expr → Expr → Expr
deriving Repr

/-- The closure state of one `Signals.computed` node (lines 343-411): its
compute function `expr`, the id `out` of its backing signal `result`
(line 344), its dependency set `deps` (line 345) and its re-entrancy flag
`computing` (line 347).  The parallel `unsubs` list of the source
(line 346) is determined by `deps`: the unsubscribe handle stored for a
dependency `d` removes this node's scheduler (`Sub.sched nid`) from `d`'s
subscriber set, which is how `rewire` and `disposeComputed` model it. -/
structure NodeState where
  expr : Expr
  out : SigId
  deps : List SigId
  computing : Bool
deriving Repr

/-- The closure state of one `once` wrapper (lines 299-311): its `called`
flag, its `unsub` variable (`some s` once the unsubscribe closure for
signal `s` has been assigned, `none` before line 309 runs) and the wrapped
callback. -/
structure OnceSt where
  called : Bool
  unsub : Option SigId
  fid : FnId
deriving Repr

/-- An entry of `_batchQueue` (line 211): either the memoized wrapper of a
subscriber (lines 279-284; the signal it captured is recorded in
`World.batchWrappers`) or a computed node's `run` queued by its scheduler
(line 400). -/
inductive QItem where
  | wrap : Sub → QItem
  | runNode : NodeId → QItem
deriving DecidableEq, Repr

/-- The whole mutable state of the module plus instrumentation.  `log`
records every invocation of an application callback with its argument;
`runs` records every execution of a compute function (the repository's
tests observe both through closed-over counters). -/
structure World where
  sigs : List SigState
  nodes : List NodeState
  onces : List OnceSt
  activeCtx : Option (List SigId)
  batchPending : Bool
  batchQueue : List QItem
  batchWrappers : List (Sub × SigId)
  stack : List NodeId
  log : List (FnId × Val)
  runs : List NodeId

/-- An error escaping an operation: the cycle error thrown at lines 357-359,
or exhaustion of the interpreter's fuel (a model artifact). -/
inductive RErr where
  | cycle : String → RErr
  | fuel : RErr
deriving DecidableEq, Repr

/-- Result of an operation: the final world together with the error that
escaped it, if any.  JavaScript exceptions leave all module state mutated
up to the throw point, so the world is carried on the error path too. -/
abbrev Res := World × Option RErr

/-- Placeholder for an id that was never created. -/
def defaultSig : SigState := { value := .undef, subs := [], name := none }

/-- Placeholder for an id that was never created. -/
def defaultNode : NodeState :=
  { expr := .lit .undef, out := 0, deps := [], computing := false }

/-- Placeholder for an id that was never created. -/
def defaultOnce : OnceSt := { called := true, unsub := none, fid := 0 }

def sigAt (w : World) (s : SigId) : SigState := w.sigs.getD s defaultSig

def nodeAt (w : World) (nid : NodeId) : NodeState := w.nodes.getD nid defaultNode

def onceAt (w : World) (oid : OnceId) : OnceSt := w.onces.getD oid defaultOnce

def withSig (w : World) (s : SigId) (st : SigState) : World :=
  { w with sigs := w.sigs.set s st }

def withNode (w : World) (nid : NodeId) (st : NodeState) : World :=
  { w with nodes := w.nodes.set nid st }

def withOnce (w : World) (oid : OnceId) (st : OnceSt) : World :=
  { w with onces := w.onces.set oid st }

/-- `Set.add`: append if absent, keeping insertion order. -/
def addSet {α : Type} [DecidableEq α] (l : List α) (x : α) : List α :=
  if x ∈ l then l else l ++ [x]

/-- `Set.delete`. -/
def delSet {α : Type} [DecidableEq α] (l : List α) (x : α) : List α :=
  l.filter (fun y => y ≠ x)

/-- `_batchWrappers.get(fn)`: the signal captured by `fn`'s memoized
wrapper, if one was ever created (lines 279-283). -/
def findWrap : List (Sub × SigId) → Sub → Option SigId
  | [], _ => none
  | (f, s) :: rest, sub => if f = sub then some s else findWrap rest sub

/-- `signal.get()` (lines 258-261): report the value and, when a collection
context is active, add this signal to it. -/
def sigGet (w : World) (s : SigId) : Val × World :=
  match w.activeCtx with
  | some ctx => ((sigAt w s).value, { w with activeCtx := some (addSet ctx s) })
  | none => ((sigAt w s).value, w)

/-- Evaluate a compute-function body, threading the collection context. -/
def eval (w : World) : Expr → Val × World
  | .lit v => (v, w)
  | .get s => sigGet w s
  | .peek s => ((sigAt w s).value, w)
  | .cond c t e =>
      let p := eval w c
      if p.1.truthy then eval p.2 t else eval p.2 e
  | .add a b =>
      let p := eval w a
      let q := eval p.2 b
      (match p.1, q.1 with
       | .vint m, .vint n => .vint (m + n)
       | _, _ => .undef, q.2)

/-- Value of a body as a function of the signal store alone (evaluation
reads signals but never writes one). -/
def evalV (sigs : List SigState) : Expr → Val
  | .lit v => v
  | .get s => (sigs.getD s defaultSig).value
  | .peek s => (sigs.getD s defaultSig).value
  | .cond c t e =>
      if (evalV sigs c).truthy then evalV sigs t else evalV sigs e
  | .add a b =>
      match evalV sigs a, evalV sigs b with
      | .vint m, .vint n => .vint (m + n)
      | _, _ => (.undef)

/-- The collection context after evaluating a body, starting from `ctx`:
exactly the signals whose `get()` the evaluation calls are added, in first-
read order. -/
def readsAfter (sigs : List SigState) (ctx : List SigId) : Expr → List SigId
  | .lit _ => ctx
  | .get s => addSet ctx s
  | .peek _ => ctx
  | .cond c t e =>
      if (evalV sigs c).truthy then readsAfter sigs (readsAfter sigs ctx c) t
      else readsAfter sigs (readsAfter sigs ctx c) e
  | .add a b => readsAfter sigs (readsAfter sigs ctx a) b

/-- The set of signals read (`get()`) by a body, in first-read order: the
collection context a run starting from the fresh empty context ends with. -/
def exprReads (sigs : List SigState) (e : Expr) : List SigId :=
  readsAfter sigs [] e

/-- Error-propagating sequencing. -/
def andThen (r : Res) (k : World → Res) : Res :=
  match r with
  | (w, some e) => (w, some e)
  | (w, none) => k w

/-- Per-subscriber enqueue loop of `set` under an open batch (lines
277-285): look up the subscriber's memoized wrapper in the module-wide
cache, creating one that captures the signal being set if the subscriber
never had one, and add the wrapper to the queue (a set, so re-adding is a
no-op). -/
def enqueueWrappers (w : World) (s : SigId) : List Sub → World
  | [] => w
  | sub :: rest =>
      let w1 :=
        match findWrap w.batchWrappers sub with
        | some _ => { w with batchQueue := addSet w.batchQueue (.wrap sub) }
        | none =>
            { w with
              batchWrappers := w.batchWrappers ++ [(sub, s)],
              batchQueue := addSet w.batchQueue (.wrap sub) }
      enqueueWrappers w1 s rest

/-- The node's debug name, as the cycle message renders it (line 355):
`_name` of its backing signal, or `"anonymous"`. -/
def nodeName (w : World) (nid : NodeId) : String :=
  match (sigAt w (nodeAt w nid).out).name with
  | some n => n
  | none => "anonymous"

/-- The cycle-error message (lines 354-359): the names of the compute-stack
entries followed by this node, joined with `" -> "`. -/
def cycleMsg (w : World) (nid : NodeId) : String :=
  "Circular dependency detected in computed signal: " ++
    String.intercalate " -> " ((w.stack ++ [nid]).map (nodeName w))

/-- Apply a subscriber-set transformation to each signal in a list in
turn (the loops at lines 371-383 and 406). -/
def mapSubsAll (g : List Sub → List Sub) (w : World) (L : List SigId) :
    World :=
  L.foldl
    (fun acc d => withSig acc d { sigAt acc d with subs := g (sigAt acc d).subs })
    w

/-- The dependency diff of a completed run (lines 371-384): unsubscribe
this node's scheduler from dependencies no longer read, subscribe it
(`subscribeInternal`, line 382) to newly read ones, and install the new
dependency set. -/
def rewire (w : World) (nid : NodeId) (oldDeps newDeps : List SigId) : World :=
  let w1 := mapSubsAll (fun l => delSet l (.sched nid)) w
    (oldDeps.filter (fun d => d ∉ newDeps))
  let w2 := mapSubsAll (fun l => addSet l (.sched nid)) w1
    (newDeps.filter (fun d => d ∉ oldDeps))
  withNode w2 nid { nodeAt w2 nid with deps := newDeps }

/-- The `finally` clause of `run` (lines 392-396): pop the compute stack,
restore the previous collection context, clear the re-entrancy flag.  It
executes on the success and on the error path alike. -/
def finallyRestore (w : World) (nid : NodeId) (prev : Option (List SigId)) :
    World :=
  withNode
    { w with stack := w.stack.dropLast, activeCtx := prev }
    nid { nodeAt w nid with computing := false }

/-- One statement of a driver program: a `signal.set` or a
`Signals.batch`/`Signals.effect` call whose body is again a program. -/
inductive Op where
  | setSig : SigId → Val → Op
  | batch : List Op → Op
deriving Repr

mutual

/-- Invoke one subscriber with a value.  An application callback is logged;
a computed's scheduler (lines 399-402) queues its `run` under an open batch
and runs it directly otherwise; a once-wrapper (lines 302-308) invokes its
callback and then unsubscribes itself only when its `unsub` closure has
already been assigned. -/
def invokeSub (fuel : Nat) (w : World) (sub : Sub) (v : Val) : Res :=
  match fuel with
  | 0 => (w, some .fuel)
  | f + 1 =>
    match sub with
    | .user fid => ({ w with log := w.log ++ [(fid, v)] }, none)
    | .sched nid =>
        if w.batchPending then
          ({ w with batchQueue := addSet w.batchQueue (.runNode nid) }, none)
        else
          runComputed f w nid
    | .onceW oid =>
        if (onceAt w oid).called then (w, none)
        else
          let w1 :=
            withOnce { w with log := w.log ++ [((onceAt w oid).fid, v)] }
              oid { onceAt w oid with called := true }
          match (onceAt w1 oid).unsub with
          | some s =>
              (withSig w1 s
                { sigAt w1 s with
                  subs := delSet (sigAt w1 s).subs (.onceW oid) }, none)
          | none => (w1, none)

/-- The `for (const fn of [...subs]) fn(value)` loop of a non-batched `set`
(line 287): the snapshot `pending` was taken when notification began, and
`value` is re-read from the signal at each call. -/
def notifySubs (fuel : Nat) (w : World) (s : SigId) (pending : List Sub) :
    Res :=
  match fuel with
  | 0 => (w, some .fuel)
  | f + 1 =>
    match pending with
    | [] => (w, none)
    | sub :: rest =>
        andThen (invokeSub f w sub (sigAt w s).value) fun w1 =>
          notifySubs f w1 s rest

/-- `signal.set(newVal)` (lines 265-289): no-op when the (default) equality
holds; otherwise store the value, then either enqueue memoized wrappers
(open batch) or notify a snapshot of the subscriber set synchronously. -/
def sigSet (fuel : Nat) (w : World) (s : SigId) (v : Val) : Res :=
  match fuel with
  | 0 => (w, some .fuel)
  | f + 1 =>
    if (sigAt w s).value = v then (w, none)
    else
      let w1 := withSig w s { sigAt w s with value := v }
      if w1.batchPending then
        (enqueueWrappers w1 s (sigAt w1 s).subs, none)
      else
        notifySubs f w1 s (sigAt w1 s).subs

/-- `run` of a computed node (lines 349-397).  Order is the source's:
re-entrancy guard first (line 350), then the compute-stack check (lines
353-360), then push / open a fresh context, evaluate the body, publish via
`result.set` (line 369), read the context as `newDeps` (line 370), diff and
re-wire, and in every case run the `finally` clause.  An error from the
publish step (only the model's fuel bound, or a cycle error raised by a
nested run) skips the re-wiring and propagates, after the `finally`. -/
def runComputed (fuel : Nat) (w : World) (nid : NodeId) : Res :=
  match fuel with
  | 0 => (w, some .fuel)
  | f + 1 =>
    let n := nodeAt w nid
    if n.computing then (w, none)
    else if nid ∈ w.stack then (w, some (.cycle (cycleMsg w nid)))
    else
      let prev := w.activeCtx
      let w1 :=
        withNode
          { w with
            stack := w.stack ++ [nid],
            activeCtx := some [],
            runs := w.runs ++ [nid] }
          nid { n with computing := true }
      let p := eval w1 n.expr
      match sigSet f p.2 n.out p.1 with
      | (w3, some e) => (finallyRestore w3 nid prev, some e)
      | (w3, none) =>
          let newDeps := (w3.activeCtx).getD []
          let w4 := rewire w3 nid (nodeAt w3 nid).deps newDeps
          (finallyRestore w4 nid prev, none)

/-- The flush loop of `effect`'s `finally` (line 561) over a queue
snapshot.  A memoized wrapper re-reads its captured signal
(`fn(signal.get())`, line 281) and invokes its subscriber; a queued `run`
is executed. -/
def flushQueue (fuel : Nat) (w : World) (items : List QItem) : Res :=
  match fuel with
  | 0 => (w, some .fuel)
  | f + 1 =>
    match items with
    | [] => (w, none)
    | .wrap sub :: rest =>
        (match findWrap w.batchWrappers sub with
         | some s =>
             let p := sigGet w s
             andThen (invokeSub f p.2 sub p.1) fun w2 => flushQueue f w2 rest
         | none => flushQueue f w rest)
    | .runNode nid :: rest =>
        andThen (runComputed f w nid) fun w1 => flushQueue f w1 rest

def runOp (fuel : Nat) (w : World) : Op → Res
  | .setSig s v =>
      match fuel with
      | 0 => (w, some .fuel)
      | f + 1 => sigSet f w s v
  | .batch ops =>
      match fuel with
      | 0 => (w, some .fuel)
      | f + 1 => effect f w ops

def runOps (fuel : Nat) (w : World) : List Op → Res
  | [] => (w, none)
  | op :: rest =>
      match fuel with
      | 0 => (w, some .fuel)
      | f + 1 => andThen (runOp f w op) fun w1 => runOps f w1 rest

/-- `Signals.effect` = `Signals.batch` (lines 553-563): set the single
module-wide `_batchPending` boolean, run the body, and in a `finally`
clause clear the flag, snapshot and clear the queue, and invoke every
snapshotted entry — whether or not an enclosing batch is still open, and
whether or not the body threw (a body error propagates after the flush,
unless the flush itself errors). -/
def effect (fuel : Nat) (w : World) (ops : List Op) : Res :=
  match fuel with
  | 0 => (w, some .fuel)
  | f + 1 =>
    let w1 := { w with batchPending := true }
    match runOps f w1 ops with
    | (w2, none) =>
        flushQueue f { w2 with batchPending := false, batchQueue := [] }
          w2.batchQueue
    | (w2, some e) =>
        match flushQueue f { w2 with batchPending := false, batchQueue := [] }
            w2.batchQueue with
        | (w4, none) => (w4, some e)
        | (w4, some e2) => (w4, some e2)

end

/-- `Signals.create(value, default equality, name)` (lines 255-327): a
fresh signal with an empty subscriber set; its id is its index, the number
of signals created before it. -/
def mkSignal (w : World) (v : Val) (name : Option String) : World :=
  { w with sigs := w.sigs ++ [{ value := v, subs := [], name := name }] }

/-- `signal.subscribe(fn)` (lines 290-294): add the callback to the
subscriber set, then invoke it immediately with the current value. -/
def subscribeUser (fuel : Nat) (w : World) (s : SigId) (fid : FnId) : Res :=
  let w1 :=
    withSig w s { sigAt w s with subs := addSet (sigAt w s).subs (.user fid) }
  invokeSub fuel w1 (.user fid) (sigAt w1 s).value

/-- `signal.once(fn)` (lines 299-311): create a wrapper with `called` false
and its `unsub` closure still unassigned, `subscribe` it — which invokes it
immediately, while `unsub` is still unassigned — and only then assign
`unsub`.  The fresh wrapper's id is the number of wrappers created before
it. -/
def onceUser (fuel : Nat) (w : World) (s : SigId) (fid : FnId) : Res :=
  let oid := w.onces.length
  let w1 := { w with onces := w.onces ++ [{ called := false, unsub := none, fid := fid }] }
  let w2 :=
    withSig w1 s
      { sigAt w1 s with subs := addSet (sigAt w1 s).subs (.onceW oid) }
  andThen (invokeSub fuel w2 (.onceW oid) (sigAt w2 s).value) fun w3 =>
    (withOnce w3 oid { onceAt w3 oid with unsub := some s }, none)

/-- `Signals.computed(fn, name)` (lines 343-411): create the backing signal
(initial value `undefined`), register the node with an empty dependency
set, then evaluate once eagerly (`run()`, line 404).  The node id is the
number of nodes created before it; the backing signal is created like any
other signal. -/
def mkComputed (fuel : Nat) (w : World) (e : Expr) (name : Option String) :
    Res :=
  let nid := w.nodes.length
  let outSig := w.sigs.length
  let w1 :=
    { w with
      sigs := w.sigs ++ [{ value := .undef, subs := [], name := name }],
      nodes := w.nodes ++
        [{ expr := e, out := outSig, deps := [], computing := false }] }
  runComputed fuel w1 nid

/-- `computed.dispose()` (lines 405-409): run every stored unsubscribe
handle — each removes this node's scheduler from one dependency's
subscriber set — then clear `unsubs` and `deps`. -/
def disposeComputed (w : World) (nid : NodeId) : World :=
  let w1 := mapSubsAll (fun l => delSet l (.sched nid)) w (nodeAt w nid).deps
  withNode w1 nid { nodeAt w1 nid with deps := [] }

/-- The state of the module before any signal exists: empty stores, empty
batch queue and wrapper cache, no active context, empty compute stack. -/
def emptyWorld : World where
  sigs := []
  nodes := []
  onces := []
  activeCtx := none
  batchPending := false
  batchQueue := []
  batchWrappers := []
  stack := []
  log := []
  runs := []

/-! ## Predicates used by the dispose claim -/

/-- A computed node is detached from the graph: its scheduler sits in no
signal's subscriber set, and neither its queued `run` nor a memoized
wrapper of its scheduler is pending in the batch queue.  `dispose()`
establishes this from a consistently wired state. -/
def Detached (w : World) (nid : NodeId) : Prop :=
  (∀ s, Sub.sched nid ∉ (sigAt w s).subs) ∧
  QItem.runNode nid ∉ w.batchQueue ∧
  QItem.wrap (.sched nid) ∉ w.batchQueue

/-- No other node publishes into this node's backing signal: backing
signals of distinct nodes are distinct (true of every graph built by
`Signals.computed`, which creates a fresh backing signal per node). -/
def OutSep (w : World) (nid : NodeId) : Prop :=
  ∀ m, m ≠ nid → (nodeAt w m).out ≠ (nodeAt w nid).out

/-- What holds after any interpreter operation that never reaches a
detached node: it stays detached, its backing signal's value is untouched,
its compute function has not run again, and no node's backing-signal
assignment has changed.  (`r` is the state after, `w` the state before.) -/
def DetachedConc (w r : World) (nid : NodeId) : Prop :=
  Detached r nid ∧
  (sigAt r (nodeAt w nid).out).value = (sigAt w (nodeAt w nid).out).value ∧
  r.runs.count nid = w.runs.count nid ∧
  (∀ k, (nodeAt r k).out = (nodeAt w k).out) ∧
  r.nodes.length = w.nodes.length

/-- What the interpreter cannot touch while a node is computing: the
collection context is restored, the node's own closure state is unchanged,
the node store's extent is unchanged, and the node's scheduler is neither
subscribed to nor unsubscribed from any signal.  (`r` is the state after
the operation, `w` the state before.) -/
def FrozenConc (w r : World) (nid : NodeId) : Prop :=
  r.activeCtx = w.activeCtx ∧
  nodeAt r nid = nodeAt w nid ∧
  r.nodes.length = w.nodes.length ∧
  r.sigs.length = w.sigs.length ∧
  (∀ s, Sub.sched nid ∈ (sigAt r s).subs ↔ Sub.sched nid ∈ (sigAt w s).subs)

/-- Run a sequence of `signal.set` calls. -/
def applySets (fuel : Nat) (w : World) : List (SigId × Val) → Res
  | [] => (w, none)
  | p :: rest =>
      andThen (sigSet fuel w p.1 p.2) fun w1 => applySets fuel w1 rest

/-! ## Scenario worlds

Concrete executions used by the claims; each mirrors the example in the
specification's testable properties. -/

/-- Three signals `toggle = true`, `a = "A"`, `b = "B"` (ids 0, 1, 2). -/
def toggleW : World :=
  mkSignal (mkSignal (mkSignal emptyWorld (.vbool true) (some "toggle"))
    (.vstr "A") (some "a")) (.vstr "B") (some "b")

/-- `() => toggle.get() ? a.get() : b.get()`. -/
def toggleExpr : Expr := .cond (.get 0) (.get 1) (.get 2)

/-- Construct the conditional computed (node 0, backing signal 3). -/
def tog1 : Res := mkComputed 20 toggleW toggleExpr (some "c")

/-- `b.set("B2")` — the untaken branch. -/
def tog2 : Res := andThen tog1 (fun w => sigSet 20 w 2 (.vstr "B2"))

/-- `toggle.set(false)` — flip the branch. -/
def tog3 : Res := andThen tog2 (fun w => sigSet 20 w 0 (.vbool false))

/-- `a.set("A2")` — now the untaken branch. -/
def tog4 : Res := andThen tog3 (fun w => sigSet 20 w 1 (.vstr "A2"))

/-- `b.set("B3")` — the taken branch. -/
def tog5 : Res := andThen tog4 (fun w => sigSet 20 w 2 (.vstr "B3"))

/-- The state just before the toggle computed's eager first run: the three
source signals, the freshly created backing signal 3 and node 0 with empty
dependency set (`mkComputed` before its `runComputed`). -/
def togPre : World :=
  { toggleW with
    sigs := toggleW.sigs ++ [{ value := .undef, subs := [], name := some "c" }],
    nodes := [{ expr := toggleExpr, out := 3, deps := [], computing := false }] }

/-- Two signals: a guard (id 0, starts false, stands for the closure
binding `b` still being undefined) and a source `s` (id 1). -/
def cycleW : World :=
  mkSignal (mkSignal emptyWorld (.vbool false) none) (.vint 0) none

/-- `() => guard.peek() ? s.get() + b.get() : s.get()` — computed `a`
(node 0, backing signal 2), reading computed `b`'s backing signal (id 3)
once the guard is flipped. -/
def cycleExprA : Expr := .cond (.peek 0) (.add (.get 1) (.get 3)) (.get 1)

/-- `() => a.get() + 1` — computed `b` (node 1, backing signal 3). -/
def cycleExprB : Expr := .add (.get 2) (.lit (.vint 1))

/-- Construct both computed signals. -/
def cyc1 : Res :=
  andThen (mkComputed 30 cycleW cycleExprA (some "a"))
    (fun w => mkComputed 30 w cycleExprB (some "b"))

/-- Flip the guard: from now on `a` also reads `b`. -/
def cyc2 : Res := andThen cyc1 (fun w => sigSet 30 w 0 (.vbool true))

/-- `s.set(5)`: `a` re-runs, reads `b`, and wires the mutual cycle
(`a`'s scheduler subscribes to `b`'s backing signal, and `b`'s to `a`'s). -/
def cyc3 : Res := andThen cyc2 (fun w => sigSet 30 w 1 (.vint 5))

/-- `s.set(10)`: running `a` publishes into signal 2, which runs `b`,
which publishes into signal 3, which re-enters `a`'s `run` while `a` is on
the compute stack. -/
def cyc4 : Res := andThen cyc3 (fun w => sigSet 30 w 1 (.vint 10))

/-- One signal with one subscriber; inside an outer batch: a write, an
empty inner batch, another write. -/
def batchScenario : Res :=
  andThen (subscribeUser 20 (mkSignal emptyWorld (.vint 0) none) 0 0)
    (fun w => effect 20 w [.setSig 0 (.vint 1), .batch [], .setSig 0 (.vint 2)])

/-- `once` on a signal holding 5. -/
def onceScenario0 : Res := onceUser 20 (mkSignal emptyWorld (.vint 5) none) 0 0

/-- ... then `set(7)`. -/
def onceScenario1 : Res :=
  andThen onceScenario0 (fun w => sigSet 20 w 0 (.vint 7))

/-- A source signal holding 2 and `doubled = computed(() => s.get() +
s.get())` (node 0, backing signal 1). -/
def doub1 : Res :=
  mkComputed 20 (mkSignal emptyWorld (.vint 2) none) (.add (.get 0) (.get 0))
    none

/-- `doubled.dispose()`. -/
def doub2 : Res := andThen doub1 (fun w => (disposeComputed w 0, none))

/-- `s.set(10)` after dispose. -/
def doub3 : Res := andThen doub2 (fun w => sigSet 20 w 0 (.vint 10))

/-- `s.set(11)` after dispose. -/
def doub4 : Res := andThen doub3 (fun w => sigSet 20 w 0 (.vint 11))

/-- A world holding a single node whose `computing` flag is set: the state
of a computed node in the middle of its own run. -/
def computingStub : World :=
  { emptyWorld with
      nodes := [{ expr := .lit .undef, out := 0, deps := [], computing := true }] }

/-! ## The asynchronous computed signal (`src/reactive.js` lines 429-538)

`Signals.computedAsync` is embedded as a transition system.  Each run has a
cancellation token, identified by its creation index.  A run is split at
its `await`: `startRun` is the synchronous prefix of `run` (lines 440-460)
and `settleRun` the continuation after the user promise settles (lines
462-520), receiving the promise's outcome together with the reads the
run's dedicated collection context gathered (lines 457-460, 481-483).
`wired` records which signals currently hold this node's scheduler in
their subscriber set; `settled` is a ghost field marking runs whose
promise has settled, used only to state invariants. -/

/-- The published value shape (lines 430-434, 450-455, 474-479, 508-513). -/
structure AsyncState where
  status : String
  data : Option Val
  error : Option String
  loading : Bool
deriving DecidableEq, Repr

/-- State of one async computed node together with its token history. -/
structure AsyncWorld where
  value : AsyncState
  deps : List SigId
  wired : List SigId
  cancelled : List Bool
  currentCancel : Option Nat
  settled : List Bool
deriving Repr

/-- Outcome of a run's promise: resolution with a value and the reads the
run's context collected, or rejection with an error. -/
inductive AOutcome where
  | ok : Val → List SigId → AOutcome
  | err : String → AOutcome
deriving Repr

/-- The synchronous prefix of `run` (lines 440-460): mark the live token
cancelled, create a fresh token (its id is its creation index) and make it
current, publish pending with the previous `data` preserved. -/
def startRun (w : AsyncWorld) : AsyncWorld :=
  let w1 :=
    match w.currentCancel with
    | some t => { w with cancelled := w.cancelled.set t true }
    | none => w
  { w1 with
    cancelled := w1.cancelled ++ [false],
    settled := w1.settled ++ [false],
    currentCancel := some w1.cancelled.length,
    value :=
      { status := "pending", data := w1.value.data, error := none,
        loading := true } }

/-- The continuation of `run` after its promise settles (lines 462-520).
On resolution with the token already cancelled: discard silently (lines
466-470) — publish nothing, touch no wiring.  Otherwise publish resolved
(lines 474-479) and re-wire dependencies (lines 485-498).  On rejection
with the token cancelled: discard (lines 501-504); otherwise publish the
error state with `data` preserved (lines 508-513).  In every case the
`finally` clause clears `currentCancel` when it still points at this run's
token (lines 516-520). -/
def settleRun (w : AsyncWorld) (tk : Nat) (o : AOutcome) : AsyncWorld :=
  let w0 := { w with settled := w.settled.set tk true }
  let w1 :=
    match o with
    | .ok v reads =>
        if w0.cancelled.getD tk false then w0
        else
          let w2 :=
            { w0 with
              value :=
                { status := "resolved", data := some v, error := none,
                  loading := false } }
          { w2 with
            wired := (reads.filter (fun d => d ∉ w2.deps)).foldl addSet
              ((w2.deps.filter (fun d => d ∉ reads)).foldl delSet w2.wired),
            deps := reads }
    | .err e =>
        if w0.cancelled.getD tk false then w0
        else
          { w0 with
            value :=
              { status := "error", data := w0.value.data, error := some e,
                loading := false } }
  match w1.currentCancel with
  | some t => if t = tk then { w1 with currentCancel := none } else w1
  | none => w1

/-- `dispose()` of an async computed (lines 529-536): mark the current
token cancelled (`currentCancel` keeps pointing at it), run every stored
unsubscribe handle, clear `unsubs` and `deps`. -/
def disposeAsync (w : AsyncWorld) : AsyncWorld :=
  let w1 :=
    match w.currentCancel with
    | some t => { w with cancelled := w.cancelled.set t true }
    | none => w
  { w1 with wired := w1.deps.foldl delSet w1.wired, deps := [] }

/-- An event in the life of an async computed node: a (re)start of its
`run`, the settling of the run started as token `tk`, or `dispose`. -/
inductive AEvent where
  | start : AEvent
  | settle : Nat → AOutcome → AEvent
  | dispose : AEvent
deriving Repr

def aStep (w : AsyncWorld) : AEvent → AsyncWorld
  | .start => startRun w
  | .settle tk o => settleRun w tk o
  | .dispose => disposeAsync w

def aExec (w : AsyncWorld) : List AEvent → AsyncWorld
  | [] => w
  | e :: rest => aExec (aStep w e) rest

/-- The node's state right after `Signals.create` of its backing signal
(lines 430-434), before the eager first `run` (line 528): the first event
of every execution is a `.start`. -/
def asyncInit : AsyncWorld where
  value := { status := "pending", data := none, error := none, loading := true }
  deps := []
  wired := []
  cancelled := []
  currentCancel := none
  settled := []

/-- Invariant of every reachable async state: (i) every superseded token
(one that is not the most recently created) belongs to a run that has
settled or is cancelled; (ii) the current token, when set, is the most
recently created; (iii) when no token is current, every run has settled or
is cancelled; (iv) the token and settle ledgers are aligned. -/
def AInv (w : AsyncWorld) : Prop :=
  (∀ t, t < w.cancelled.length → t + 1 < w.cancelled.length →
      w.settled.getD t false = true ∨ w.cancelled.getD t false = true) ∧
  (∀ t, w.currentCancel = some t → t + 1 = w.cancelled.length) ∧
  (w.currentCancel = none → ∀ t, t < w.cancelled.length →
      w.settled.getD t false = true ∨ w.cancelled.getD t false = true) ∧
  w.settled.length = w.cancelled.length

/-! ## Basic lemmas about the store and set operations -/

theorem getD_set_ne {α : Type} (l : List α) (i j : Nat) (a d : α) (h : i ≠ j) :
    (l.set i a).getD j d = l.getD j d := by
  induction l generalizing i j with
  | nil => simp
  | cons x xs ih =>
      cases i with
      | zero => cases j with
          | zero => exact absurd rfl h
          | succ j => simp
      | succ i => cases j with
          | zero => simp
          | succ j => simpa using ih i j (by omega)

theorem getD_set_self {α : Type} (l : List α) (i : Nat) (a d : α)
    (h : i < l.length) : (l.set i a).getD i d = a := by
  induction l generalizing i with
  | nil => simp at h
  | cons x xs ih =>
      cases i with
      | zero => simp
      | succ i => simpa using ih i (by simpa using h)

theorem mem_addSet {α : Type} [DecidableEq α] (l : List α) (x y : α) :
    x ∈ addSet l y ↔ x ∈ l ∨ x = y := by
  unfold addSet
  split_ifs with h
  · exact ⟨Or.inl, fun h1 => h1.elim id (fun e => e ▸ h)⟩
  · simp

theorem mem_delSet {α : Type} [DecidableEq α] (l : List α) (x y : α) :
    x ∈ delSet l y ↔ x ∈ l ∧ x ≠ y := by
  unfold delSet
  simp [List.mem_filter]

theorem eval_spec (e : Expr) : ∀ (w : World) (l : List SigId),
    w.activeCtx = some l →
    eval w e = (evalV w.sigs e, { w with activeCtx := some (readsAfter w.sigs l e) }) := by
  induction e with
  | lit v => intro w l h; simp [eval, evalV, readsAfter, ← h]
  | get s => intro w l h; simp [eval, sigGet, h, evalV, readsAfter, sigAt]
  | peek s => intro w l h; simp [eval, evalV, readsAfter, sigAt, ← h]
  | cond c t e ihc iht ihe =>
      intro w l h
      simp only [eval, evalV, readsAfter, ihc w l h]
      cases hc : (evalV w.sigs c).truthy
      · simp only [hc, Bool.false_eq_true, if_false]
        exact ihe _ _ rfl
      · simp only [hc, if_true]
        exact iht _ _ rfl
  | add a b iha ihb =>
      intro w l h
      simp only [eval, evalV, readsAfter, iha w l h]
      rw [ihb { w with activeCtx := some (readsAfter w.sigs l a) }
        (readsAfter w.sigs l a) rfl]


theorem sigAt_withSig (w : World) (s t : SigId) (st : SigState) :
    sigAt (withSig w s st) t
      = if s = t ∧ s < w.sigs.length then st else sigAt w t := by
  by_cases h1 : s = t
  · subst h1
    by_cases h2 : s < w.sigs.length
    · simp [sigAt, withSig, List.getD_eq_getElem?_getD, h2,
        List.getElem?_set_eq_of_lt _ h2]
    · have h3 : w.sigs.length ≤ s := Nat.le_of_not_lt h2
      have h4 : (w.sigs.set s st).length ≤ s := by simpa using h3
      simp [sigAt, withSig, List.getD_eq_getElem?_getD, h2,
        List.getElem?_eq_none h3, List.getElem?_eq_none h4]
  · simp [sigAt, withSig, List.getD_eq_getElem?_getD, h1,
      List.getElem?_set_ne h1]

theorem nodeAt_withNode (w : World) (m k : NodeId) (st : NodeState) :
    nodeAt (withNode w m st) k
      = if m = k ∧ m < w.nodes.length then st else nodeAt w k := by
  by_cases h1 : m = k
  · subst h1
    by_cases h2 : m < w.nodes.length
    · simp [nodeAt, withNode, List.getD_eq_getElem?_getD, h2,
        List.getElem?_set_eq_of_lt _ h2]
    · have h3 : w.nodes.length ≤ m := Nat.le_of_not_lt h2
      have h4 : (w.nodes.set m st).length ≤ m := by simpa using h3
      simp [nodeAt, withNode, List.getD_eq_getElem?_getD, h2,
        List.getElem?_eq_none h3, List.getElem?_eq_none h4]
  · simp [nodeAt, withNode, List.getD_eq_getElem?_getD, h1,
      List.getElem?_set_ne h1]

theorem onceAt_withOnce (w : World) (m k : OnceId) (st : OnceSt) :
    onceAt (withOnce w m st) k
      = if m = k ∧ m < w.onces.length then st else onceAt w k := by
  by_cases h1 : m = k
  · subst h1
    by_cases h2 : m < w.onces.length
    · simp [onceAt, withOnce, List.getD_eq_getElem?_getD, h2,
        List.getElem?_set_eq_of_lt _ h2]
    · have h3 : w.onces.length ≤ m := Nat.le_of_not_lt h2
      have h4 : (w.onces.set m st).length ≤ m := by simpa using h3
      simp [onceAt, withOnce, List.getD_eq_getElem?_getD, h2,
        List.getElem?_eq_none h3, List.getElem?_eq_none h4]
  · simp [onceAt, withOnce, List.getD_eq_getElem?_getD, h1,
      List.getElem?_set_ne h1]

theorem mapSubsAll_cons (g : List Sub → List Sub) (w : World) (d : SigId)
    (rest : List SigId) :
    mapSubsAll g w (d :: rest)
      = mapSubsAll g (withSig w d { sigAt w d with subs := g (sigAt w d).subs })
          rest := rfl

theorem mapSubsAll_fields (g : List Sub → List Sub) (L : List SigId) :
    ∀ w : World,
      (mapSubsAll g w L).nodes = w.nodes ∧
      (mapSubsAll g w L).onces = w.onces ∧
      (mapSubsAll g w L).activeCtx = w.activeCtx ∧
      (mapSubsAll g w L).batchPending = w.batchPending ∧
      (mapSubsAll g w L).batchQueue = w.batchQueue ∧
      (mapSubsAll g w L).batchWrappers = w.batchWrappers ∧
      (mapSubsAll g w L).stack = w.stack ∧
      (mapSubsAll g w L).log = w.log ∧
      (mapSubsAll g w L).runs = w.runs ∧
      (mapSubsAll g w L).sigs.length = w.sigs.length := by
  induction L with
  | nil => intro w; simp [mapSubsAll]
  | cons d rest ih =>
      intro w
      have IH := ih (withSig w d { sigAt w d with subs := g (sigAt w d).subs })
      rw [mapSubsAll_cons]
      refine ⟨?_, ?_, ?_, ?_, ?_, ?_, ?_, ?_, ?_, ?_⟩
      · rw [IH.1]; rfl
      · rw [IH.2.1]; rfl
      · rw [IH.2.2.1]; rfl
      · rw [IH.2.2.2.1]; rfl
      · rw [IH.2.2.2.2.1]; rfl
      · rw [IH.2.2.2.2.2.1]; rfl
      · rw [IH.2.2.2.2.2.2.1]; rfl
      · rw [IH.2.2.2.2.2.2.2.1]; rfl
      · rw [IH.2.2.2.2.2.2.2.2.1]; rfl
      · rw [IH.2.2.2.2.2.2.2.2.2]; simp [withSig]

theorem mapSubsAll_value_name (g : List Sub → List Sub) (L : List SigId) :
    ∀ (w : World) (s : SigId),
      (sigAt (mapSubsAll g w L) s).value = (sigAt w s).value ∧
      (sigAt (mapSubsAll g w L) s).name = (sigAt w s).name := by
  induction L with
  | nil => intro w s; simp [mapSubsAll]
  | cons d rest ih =>
      intro w s
      have IH := ih (withSig w d { sigAt w d with subs := g (sigAt w d).subs }) s
      rw [mapSubsAll_cons]
      rw [IH.1, IH.2, sigAt_withSig]
      split_ifs with h
      · obtain ⟨h1, _⟩ := h; subst h1; exact ⟨rfl, rfl⟩
      · exact ⟨rfl, rfl⟩


theorem sigAt_ge (w : World) (s : SigId) (h : w.sigs.length ≤ s) :
    sigAt w s = defaultSig := by
  simp [sigAt, List.getD_eq_getElem?_getD, List.getElem?_eq_none h]

theorem sigAt_withNode (w : World) (m : NodeId) (st : NodeState) (s : SigId) :
    sigAt (withNode w m st) s = sigAt w s := rfl

theorem nodeAt_withSig (w : World) (s : SigId) (st : SigState) (k : NodeId) :
    nodeAt (withSig w s st) k = nodeAt w k := rfl

theorem mem_mapSubsAll_of_mem_iff (g : List Sub → List Sub) (x : Sub)
    (hg : ∀ l, x ∈ g l ↔ x ∈ l) (L : List SigId) :
    ∀ (w : World) (s : SigId),
      (x ∈ (sigAt (mapSubsAll g w L) s).subs ↔ x ∈ (sigAt w s).subs) := by
  induction L with
  | nil => intro w s; rfl
  | cons d rest ih =>
      intro w s
      rw [mapSubsAll_cons, ih, sigAt_withSig]
      split_ifs with h
      · obtain ⟨h1, _⟩ := h; subst h1
        exact hg _
      · rfl

theorem mem_mapSubsAll_del (x : Sub) (L : List SigId) :
    ∀ (w : World) (s : SigId),
      (x ∈ (sigAt (mapSubsAll (fun l => delSet l x) w L) s).subs ↔
        (x ∈ (sigAt w s).subs ∧ s ∉ L)) := by
  induction L with
  | nil => intro w s; simp [mapSubsAll]
  | cons d rest ih =>
      intro w s
      rw [mapSubsAll_cons, ih, sigAt_withSig]
      split_ifs with h
      · obtain ⟨h1, _⟩ := h; subst h1
        simp [mem_delSet]
      · by_cases hds : d = s
        · subst hds
          have hlen : w.sigs.length ≤ d := by
            rcases Nat.lt_or_ge d w.sigs.length with h2 | h2
            · exact absurd ⟨rfl, h2⟩ h
            · exact h2
          rw [sigAt_ge _ _ hlen]
          simp [defaultSig]
        · have hnc : (s ∉ d :: rest) ↔ s ∉ rest := by
            simp only [List.mem_cons]
            constructor
            · intro hn hr; exact hn (Or.inr hr)
            · intro hn hor
              rcases hor with e | hr
              · exact hds e.symm
              · exact hn hr
          rw [hnc]

theorem mem_mapSubsAll_add (x : Sub) (L : List SigId) :
    ∀ (w : World) (s : SigId),
      (x ∈ (sigAt (mapSubsAll (fun l => addSet l x) w L) s).subs ↔
        (x ∈ (sigAt w s).subs ∨ (s ∈ L ∧ s < w.sigs.length))) := by
  induction L with
  | nil => intro w s; simp [mapSubsAll]
  | cons d rest ih =>
      intro w s
      have hlen :
          (withSig w d { sigAt w d with subs := addSet (sigAt w d).subs x }).sigs.length
            = w.sigs.length := by simp [withSig]
      rw [mapSubsAll_cons, ih, hlen, sigAt_withSig]
      split_ifs with h
      · obtain ⟨h1, h2⟩ := h; subst h1
        simp [mem_addSet, h2]
      · by_cases hds : d = s
        · subst hds
          have hge : w.sigs.length ≤ d := by
            rcases Nat.lt_or_ge d w.sigs.length with h2 | h2
            · exact absurd ⟨rfl, h2⟩ h
            · exact h2
          have hnl : ¬d < w.sigs.length := Nat.not_lt.2 hge
          simp [hnl]
        · have hnc : (s ∈ d :: rest ∧ s < w.sigs.length)
              ↔ (s ∈ rest ∧ s < w.sigs.length) := by
            simp only [List.mem_cons]
            constructor
            · rintro ⟨e | hr, h2⟩
              · exact absurd e.symm hds
              · exact ⟨hr, h2⟩
            · rintro ⟨hr, h2⟩; exact ⟨Or.inr hr, h2⟩
          rw [hnc]


theorem nodeAt_congr (w1 w2 : World) (k : NodeId) (h : w1.nodes = w2.nodes) :
    nodeAt w1 k = nodeAt w2 k := by simp [nodeAt, h]

theorem sigAt_congr (w1 w2 : World) (s : SigId) (h : w1.sigs = w2.sigs) :
    sigAt w1 s = sigAt w2 s := by simp [sigAt, h]

theorem rewire_fields (w : World) (nid : NodeId) (oldD newD : List SigId) :
    (rewire w nid oldD newD).activeCtx = w.activeCtx ∧
    (rewire w nid oldD newD).batchPending = w.batchPending ∧
    (rewire w nid oldD newD).batchQueue = w.batchQueue ∧
    (rewire w nid oldD newD).batchWrappers = w.batchWrappers ∧
    (rewire w nid oldD newD).stack = w.stack ∧
    (rewire w nid oldD newD).log = w.log ∧
    (rewire w nid oldD newD).runs = w.runs ∧
    (rewire w nid oldD newD).onces = w.onces ∧
    (rewire w nid oldD newD).nodes.length = w.nodes.length ∧
    (rewire w nid oldD newD).sigs.length = w.sigs.length := by
  have h1 := mapSubsAll_fields (fun l => delSet l (.sched nid))
    (oldD.filter fun d => d ∉ newD) w
  have h2 := mapSubsAll_fields (fun l => addSet l (.sched nid))
    (newD.filter fun d => d ∉ oldD)
    (mapSubsAll (fun l => delSet l (.sched nid)) w
      (oldD.filter fun d => d ∉ newD))
  refine ⟨?_, ?_, ?_, ?_, ?_, ?_, ?_, ?_, ?_, ?_⟩
  · exact h2.2.2.1.trans h1.2.2.1
  · exact h2.2.2.2.1.trans h1.2.2.2.1
  · exact h2.2.2.2.2.1.trans h1.2.2.2.2.1
  · exact h2.2.2.2.2.2.1.trans h1.2.2.2.2.2.1
  · exact h2.2.2.2.2.2.2.1.trans h1.2.2.2.2.2.2.1
  · exact h2.2.2.2.2.2.2.2.1.trans h1.2.2.2.2.2.2.2.1
  · exact h2.2.2.2.2.2.2.2.2.1.trans h1.2.2.2.2.2.2.2.2.1
  · exact h2.2.1.trans h1.2.1
  · have step : (rewire w nid oldD newD).nodes.length
        = (mapSubsAll (fun l => addSet l (.sched nid))
            (mapSubsAll (fun l => delSet l (.sched nid)) w
              (oldD.filter fun d => d ∉ newD))
            (newD.filter fun d => d ∉ oldD)).nodes.length := by
      simp [rewire, withNode]
    rw [step, congrArg List.length h2.1, congrArg List.length h1.1]
  · exact h2.2.2.2.2.2.2.2.2.2.trans h1.2.2.2.2.2.2.2.2.2

theorem rewire_nodeAt_ne (w : World) (m : NodeId) (oldD newD : List SigId)
    (k : NodeId) (h : m ≠ k) :
    nodeAt (rewire w m oldD newD) k = nodeAt w k := by
  unfold rewire
  rw [nodeAt_withNode]
  have hnodes := (mapSubsAll_fields (fun l => addSet l (.sched m))
    (newD.filter fun d => d ∉ oldD)
    (mapSubsAll (fun l => delSet l (.sched m)) w
      (oldD.filter fun d => d ∉ newD))).1.trans
    (mapSubsAll_fields (fun l => delSet l (.sched m))
      (oldD.filter fun d => d ∉ newD) w).1
  rw [if_neg (by intro hc; exact h hc.1)]
  exact nodeAt_congr _ _ _ hnodes

theorem rewire_nodeAt_self (w : World) (nid : NodeId) (oldD newD : List SigId)
    (hn : nid < w.nodes.length) :
    nodeAt (rewire w nid oldD newD) nid = { nodeAt w nid with deps := newD } := by
  unfold rewire
  rw [nodeAt_withNode]
  have hnodes := (mapSubsAll_fields (fun l => addSet l (.sched nid))
    (newD.filter fun d => d ∉ oldD)
    (mapSubsAll (fun l => delSet l (.sched nid)) w
      (oldD.filter fun d => d ∉ newD))).1.trans
    (mapSubsAll_fields (fun l => delSet l (.sched nid))
      (oldD.filter fun d => d ∉ newD) w).1
  rw [if_pos ⟨rfl, by rw [congrArg List.length hnodes]; exact hn⟩]
  rw [nodeAt_congr _ _ nid hnodes]

theorem rewire_mem_ne (w : World) (m : NodeId) (oldD newD : List SigId)
    (nid : NodeId) (h : nid ≠ m) (s : SigId) :
    (Sub.sched nid ∈ (sigAt (rewire w m oldD newD) s).subs ↔
      Sub.sched nid ∈ (sigAt w s).subs) := by
  unfold rewire
  rw [sigAt_withNode]
  rw [mem_mapSubsAll_of_mem_iff _ _ (fun l => by
    rw [mem_addSet]
    constructor
    · rintro (h1 | h1)
      · exact h1
      · exact absurd (Sub.sched.inj h1) h
    · exact Or.inl)]
  rw [mem_mapSubsAll_of_mem_iff _ _ (fun l => by
    rw [mem_delSet]
    constructor
    · exact And.left
    · intro h1
      exact ⟨h1, by intro hc; exact h (Sub.sched.inj hc)⟩)]

theorem rewire_mem_self (w : World) (nid : NodeId) (oldD newD : List SigId)
    (s : SigId)
    (hpre : Sub.sched nid ∈ (sigAt w s).subs ↔ s ∈ oldD)
    (hnew : ∀ d ∈ newD, d < w.sigs.length) :
    (Sub.sched nid ∈ (sigAt (rewire w nid oldD newD) s).subs ↔ s ∈ newD) := by
  unfold rewire
  rw [sigAt_withNode, mem_mapSubsAll_add, mem_mapSubsAll_del]
  have hlen : (mapSubsAll (fun l => delSet l (.sched nid)) w
      (oldD.filter fun d => d ∉ newD)).sigs.length = w.sigs.length :=
    (mapSubsAll_fields _ _ _).2.2.2.2.2.2.2.2.2
  rw [hlen, hpre]
  constructor
  · rintro (⟨hold, hnl1⟩ | ⟨hl2, _⟩)
    · by_cases hsn : s ∈ newD
      · exact hsn
      · exact absurd (List.mem_filter.2 ⟨hold, by simp [hsn]⟩) hnl1
    · exact (List.mem_filter.1 hl2).1
  · intro hsn
    by_cases hold : s ∈ oldD
    · refine Or.inl ⟨hold, fun hf => ?_⟩
      have := (List.mem_filter.1 hf).2
      simp at this
      exact this hsn
    · exact Or.inr ⟨List.mem_filter.2 ⟨hsn, by simp [hold]⟩, hnew s hsn⟩

theorem enqueueWrappers_fields (s : SigId) (L : List Sub) :
    ∀ w : World,
      (enqueueWrappers w s L).sigs = w.sigs ∧
      (enqueueWrappers w s L).nodes = w.nodes ∧
      (enqueueWrappers w s L).onces = w.onces ∧
      (enqueueWrappers w s L).activeCtx = w.activeCtx ∧
      (enqueueWrappers w s L).batchPending = w.batchPending ∧
      (enqueueWrappers w s L).stack = w.stack ∧
      (enqueueWrappers w s L).log = w.log ∧
      (enqueueWrappers w s L).runs = w.runs := by
  induction L with
  | nil => intro w; exact ⟨rfl, rfl, rfl, rfl, rfl, rfl, rfl, rfl⟩
  | cons sub rest ih =>
      intro w
      unfold enqueueWrappers
      cases hf : findWrap w.batchWrappers sub <;> exact ih _

theorem mem_enqueueWrappers_batchQueue (s : SigId) (L : List Sub) :
    ∀ (w : World) (q : QItem), q ∈ (enqueueWrappers w s L).batchQueue →
      q ∈ w.batchQueue ∨ ∃ sub, sub ∈ L ∧ q = QItem.wrap sub := by
  induction L with
  | nil => intro w q hq; exact Or.inl hq
  | cons sub rest ih =>
      intro w q hq
      unfold enqueueWrappers at hq
      cases hf : findWrap w.batchWrappers sub <;> rw [hf] at hq
      all_goals
        rcases ih _ q hq with hq1 | ⟨t, ht, rfl⟩
        · rw [show ∀ w1 : World, w1.batchQueue = w1.batchQueue from fun _ => rfl] at hq1
          first
          | (rcases (mem_addSet _ _ _).1 hq1 with h1 | rfl
             · exact Or.inl h1
             · exact Or.inr ⟨sub, List.mem_cons_self _ _, rfl⟩)
        · exact Or.inr ⟨t, List.mem_cons_of_mem _ ht, rfl⟩

/-! ## Theorems about the `html` helper (claim C6) -/

theorem escapeText_data (s : String) :
    (escapeText s).data = s.data.flatMap (fun c => (escChar c).data) := rfl

/-- Counting occurrences of a character through the per-character escaping,
when escaping changes nothing about that character's count. -/
theorem count_escapeText_eq (q : Char) (s : String)
    (h : ∀ c : Char, List.count q (escChar c).data = List.count q [c]) :
    List.count q (escapeText s).data = List.count q s.data := by
  rw [escapeText_data]
  induction s.data with
  | nil => rfl
  | cons c l ih =>
      rw [List.flatMap_cons, List.count_append, ih, h]
      simp [List.count_cons, Nat.add_comm]

/-- A character that never survives the per-character escaping does not
occur in an escaped string. -/
theorem count_escapeText_zero (q : Char) (s : String)
    (h : ∀ c : Char, List.count q (escChar c).data = 0) :
    List.count q (escapeText s).data = 0 := by
  rw [escapeText_data]
  induction s.data with
  | nil => rfl
  | cons c l ih => rw [List.flatMap_cons, List.count_append, ih, h]

/-- C6, counterexample.  The claim states that quote characters in a plain
interpolation are escaped.  They are not: interpolating the one-character
string consisting of a double quote into `html` leaves the quote verbatim
in the resulting content (there is no `&quot;` rewriting — the
`textContent`/`innerHTML` round-trip serialises text nodes without touching
quotes, as the source's own doc example at `src/reactive.js` lines 26-28
shows). -/
theorem c6_quote_counterexample :
    htmlContent ["<div>", "</div>"] [.plain "\""] = "<div>\"</div>" ∧
    htmlContent ["<div>", "</div>"] [.plain "\""] ≠ "<div>&quot;</div>" := by
  constructor
  · rfl
  · decide

/-- C6, amended.  A plain (non-SafeHTML) interpolated value is escaped with
the text-node serialiser: `&`, `<`, `>` are rewritten to `&amp;`, `&lt;`,
`&gt;` (so no raw `<` or `>` remains in escaped content), while quote
characters are not escaped and pass through exactly (their count is
preserved and the serialiser maps each to itself); a SafeHTML value has its
`.content` concatenated verbatim with no escaping. -/
theorem c6_amended :
    (∀ pre post s, htmlContent [pre, post] [.plain s]
        = pre ++ escapeText s ++ post) ∧
    (∀ pre post c, htmlContent [pre, post] [.safe c] = pre ++ c ++ post) ∧
    (escChar '&' = "&amp;" ∧ escChar '<' = "&lt;" ∧ escChar '>' = "&gt;") ∧
    (∀ s, List.count '<' (escapeText s).data = 0 ∧
      List.count '>' (escapeText s).data = 0) ∧
    (∀ s, List.count (Char.ofNat 34) (escapeText s).data
        = List.count (Char.ofNat 34) s.data ∧
      List.count (Char.ofNat 39) (escapeText s).data
        = List.count (Char.ofNat 39) s.data) ∧
    (escChar (Char.ofNat 34) = String.singleton (Char.ofNat 34) ∧
      escChar (Char.ofNat 39) = String.singleton (Char.ofNat 39)) := by
  refine ⟨?_, ?_, ⟨rfl, rfl, rfl⟩, ?_, ?_, ⟨rfl, rfl⟩⟩
  · intro pre post s; simp [htmlContent]
  · intro pre post c; simp [htmlContent]
  · intro s
    constructor <;>
      · apply count_escapeText_zero
        intro c
        unfold escChar
        split_ifs with e1 e2 e3 e4 <;> try decide
        all_goals simp_all [List.count_cons]
  · intro s
    constructor <;>
      · apply count_escapeText_eq
        intro c
        unfold escChar
        split_ifs with e1 e2 e3 e4 <;> (try subst_vars) <;> first | decide | rfl

/-! ## Batching claims (C2, C10, C7) -/

set_option maxHeartbeats 2000000 in
/-- C2.  For a signal with one subscriber, three `set` calls with pairwise
distinct values inside one `batch()` produce no error, invoke the
subscriber exactly once at flush with the final value `v3` (dedup through
the memoized wrapper), and — counting the immediate call `subscribe` makes
— the subscriber is invoked twice in total, as the invocation log shows;
the signal ends holding `v3`. -/
theorem c2_batch_coalesces_to_final_value (v0 v1 v2 v3 : Val)
    (h12 : v1 ≠ v2) (h23 : v2 ≠ v3) (h13 : v1 ≠ v3) :
    (andThen (subscribeUser 20 (mkSignal emptyWorld v0 none) 0 0) fun w =>
        effect 20 w [.setSig 0 v1, .setSig 0 v2, .setSig 0 v3]).2 = none ∧
    (andThen (subscribeUser 20 (mkSignal emptyWorld v0 none) 0 0) fun w =>
        effect 20 w [.setSig 0 v1, .setSig 0 v2, .setSig 0 v3]).1.log
      = [(0, v0), (0, v3)] ∧
    (sigAt (andThen (subscribeUser 20 (mkSignal emptyWorld v0 none) 0 0) fun w =>
        effect 20 w [.setSig 0 v1, .setSig 0 v2, .setSig 0 v3]).1 0).value
      = v3 := by
  have hu : v1 ≠ v3 := h13
  by_cases h01 : v0 = v1 <;>
  · subst_vars
    simp_all [andThen, subscribeUser, invokeSub, effect, runOps, runOp, sigSet,
      notifySubs, enqueueWrappers, flushQueue, sigGet, mkSignal, emptyWorld, addSet,
      delSet, findWrap, sigAt, withSig, defaultSig, Ne.symm]

/-- C2, witness: the specification's own example — initial value 0, then
`set(1); set(2); set(3)` inside one batch; two invocations in total, the
second with 3. -/
theorem c2_witness :
    (andThen (subscribeUser 20 (mkSignal emptyWorld (.vint 0) none) 0 0) fun w =>
        effect 20 w [.setSig 0 (.vint 1), .setSig 0 (.vint 2), .setSig 0 (.vint 3)]).2
      = none ∧
    (andThen (subscribeUser 20 (mkSignal emptyWorld (.vint 0) none) 0 0) fun w =>
        effect 20 w [.setSig 0 (.vint 1), .setSig 0 (.vint 2), .setSig 0 (.vint 3)]).1.log
      = [(0, .vint 0), (0, .vint 3)] ∧
    (sigAt (andThen (subscribeUser 20 (mkSignal emptyWorld (.vint 0) none) 0 0) fun w =>
        effect 20 w [.setSig 0 (.vint 1), .setSig 0 (.vint 2), .setSig 0 (.vint 3)]).1 0).value
      = .vint 3 :=
  c2_batch_coalesces_to_final_value (.vint 0) (.vint 1) (.vint 2) (.vint 3)
    (by decide) (by decide) (by decide)

set_option maxHeartbeats 2000000 in
/-- C10.  The batched-notification wrapper cache `_batchWrappers` is
module-wide and keyed by subscriber identity alone; the wrapper permanently
captures the first signal it was created for.  With one callback subscribed
to signals 0 and 1, a batch writing signal 0 and then a batch writing only
signal 1 both flush by invoking the callback with signal 0's then-current
value: the log ends `(0, va1), (0, va1)` — the second flush reports
signal 0's value `va1`, never signal 1's new value — and the cache holds
exactly the one wrapper capturing signal 0. -/
theorem c10_wrapper_captures_first_signal (va0 vb0 va1 vb1 : Val)
    (ha : va0 ≠ va1) (hb : vb0 ≠ vb1) :
    (andThen (andThen (andThen
        (subscribeUser 20 (mkSignal (mkSignal emptyWorld va0 none) vb0 none) 0 0)
        (fun w => subscribeUser 20 w 1 0))
        (fun w => effect 20 w [.setSig 0 va1]))
        (fun w => effect 20 w [.setSig 1 vb1])).2 = none ∧
    (andThen (andThen (andThen
        (subscribeUser 20 (mkSignal (mkSignal emptyWorld va0 none) vb0 none) 0 0)
        (fun w => subscribeUser 20 w 1 0))
        (fun w => effect 20 w [.setSig 0 va1]))
        (fun w => effect 20 w [.setSig 1 vb1])).1.log
      = [(0, va0), (0, vb0), (0, va1), (0, va1)] ∧
    (andThen (andThen (andThen
        (subscribeUser 20 (mkSignal (mkSignal emptyWorld va0 none) vb0 none) 0 0)
        (fun w => subscribeUser 20 w 1 0))
        (fun w => effect 20 w [.setSig 0 va1]))
        (fun w => effect 20 w [.setSig 1 vb1])).1.batchWrappers
      = [(.user 0, 0)] ∧
    (sigAt (andThen (andThen (andThen
        (subscribeUser 20 (mkSignal (mkSignal emptyWorld va0 none) vb0 none) 0 0)
        (fun w => subscribeUser 20 w 1 0))
        (fun w => effect 20 w [.setSig 0 va1]))
        (fun w => effect 20 w [.setSig 1 vb1])).1 1).value = vb1 := by
  simp_all [andThen, subscribeUser, invokeSub, effect, runOps, runOp, sigSet,
    notifySubs, enqueueWrappers, flushQueue, sigGet, mkSignal, emptyWorld, addSet,
    delSet, findWrap, sigAt, withSig, defaultSig, Ne.symm]

/-- C10, witness: concrete strings.  The second flush reports `"a1"`
(signal 0's value) even though only signal 1 — now holding `"b1"` — was
written in its batch. -/
theorem c10_witness :
    (andThen (andThen (andThen
        (subscribeUser 20 (mkSignal (mkSignal emptyWorld (.vstr "a0") none) (.vstr "b0") none) 0 0)
        (fun w => subscribeUser 20 w 1 0))
        (fun w => effect 20 w [.setSig 0 (.vstr "a1")]))
        (fun w => effect 20 w [.setSig 1 (.vstr "b1")])).2 = none ∧
    (andThen (andThen (andThen
        (subscribeUser 20 (mkSignal (mkSignal emptyWorld (.vstr "a0") none) (.vstr "b0") none) 0 0)
        (fun w => subscribeUser 20 w 1 0))
        (fun w => effect 20 w [.setSig 0 (.vstr "a1")]))
        (fun w => effect 20 w [.setSig 1 (.vstr "b1")])).1.log
      = [(0, .vstr "a0"), (0, .vstr "b0"), (0, .vstr "a1"), (0, .vstr "a1")] ∧
    (andThen (andThen (andThen
        (subscribeUser 20 (mkSignal (mkSignal emptyWorld (.vstr "a0") none) (.vstr "b0") none) 0 0)
        (fun w => subscribeUser 20 w 1 0))
        (fun w => effect 20 w [.setSig 0 (.vstr "a1")]))
        (fun w => effect 20 w [.setSig 1 (.vstr "b1")])).1.batchWrappers
      = [(.user 0, 0)] ∧
    (sigAt (andThen (andThen (andThen
        (subscribeUser 20 (mkSignal (mkSignal emptyWorld (.vstr "a0") none) (.vstr "b0") none) 0 0)
        (fun w => subscribeUser 20 w 1 0))
        (fun w => effect 20 w [.setSig 0 (.vstr "a1")]))
        (fun w => effect 20 w [.setSig 1 (.vstr "b1")])).1 1).value = .vstr "b1" :=
  c10_wrapper_captures_first_signal (.vstr "a0") (.vstr "b0") (.vstr "a1")
    (.vstr "b1") (by decide) (by decide)

set_option maxHeartbeats 2000000 in
/-- The nested-batch scenario evaluated: the subscriber fires at subscribe
time with 0, then during the outer batch — once when the inner (empty)
batch's `finally` flushes the queued wrapper with the value 1, and once
synchronously at the `set` to 2 that follows the inner batch (the inner
`finally` cleared `_batchPending`).  No error; the queue ends empty. -/
theorem batch_scenario_facts :
    batchScenario.2 = none ∧
    batchScenario.1.log = [(0, .vint 0), (0, .vint 1), (0, .vint 2)] ∧
    batchScenario.1.batchPending = false ∧
    batchScenario.1.batchQueue = [] := by
  simp [batchScenario, andThen, subscribeUser, invokeSub, effect, runOps, runOp,
    sigSet, notifySubs, enqueueWrappers, flushQueue, sigGet, mkSignal, emptyWorld,
    addSet, delSet, findWrap, sigAt, withSig, defaultSig]

/-- C7, counterexample.  The claim says an inner batch completing inside an
open outer batch performs no early flush and later writes in the outer
batch are still coalesced: then the subscriber of the scenario would be
invoked exactly once after subscribe time, at the outer flush, with the
final value — log `[(0, 0), (0, 2)]`.  The code invokes it twice more —
at the inner batch's flush with 1 and synchronously at the following
write with 2. -/
theorem c7_inner_batch_counterexample :
    batchScenario.1.log = [(0, .vint 0), (0, .vint 1), (0, .vint 2)] ∧
    batchScenario.1.log ≠ [(0, .vint 0), (0, .vint 2)] := by
  refine ⟨batch_scenario_facts.2.1, ?_⟩
  rw [batch_scenario_facts.2.1]
  decide

/-! ## `once` claim (C8) -/

/-- The `once` scenario evaluated: the callback fires exactly once,
immediately; the wrapper stays in the subscriber set both right after
`once` returns and after a later `set`, which does not invoke the callback
again. -/
theorem once_scenario_facts :
    onceScenario0.2 = none ∧ onceScenario0.1.log = [(0, .vint 5)] ∧
    (sigAt onceScenario0.1 0).subs = [.onceW 0] ∧
    onceScenario1.2 = none ∧ onceScenario1.1.log = [(0, .vint 5)] ∧
    (sigAt onceScenario1.1 0).subs = [.onceW 0] := by
  simp [onceScenario1, onceScenario0, andThen, onceUser, invokeSub, sigSet,
    notifySubs, sigGet, mkSignal, emptyWorld, addSet, delSet, findWrap, sigAt,
    withSig, withOnce, onceAt, defaultSig, defaultOnce, enqueueWrappers]

/-- C8, counterexample.  The claim says that after the first invocation the
installed wrapper is unsubscribed from the signal.  It is not: in the
scenario the wrapper is still the signal's one subscriber after `once`
returns (the immediate invocation runs before the unsubscribe closure is
assigned at line 309, so the `if (unsub)` guard at line 306 skips), and it
is still there after a subsequent `set`. -/
theorem c8_wrapper_retained_counterexample :
    (sigAt onceScenario0.1 0).subs = [.onceW 0] ∧
    (sigAt onceScenario1.1 0).subs = [.onceW 0] ∧
    onceScenario1.1.log = [(0, .vint 5)] := by
  exact ⟨once_scenario_facts.2.2.1, once_scenario_facts.2.2.2.2.2,
    once_scenario_facts.2.2.2.2.1⟩

/-- C8, amended.  `once(fn)` invokes `fn` exactly once — immediately and
synchronously with the current value, before `once` returns — and a
subsequent `set` never invokes `fn` again (the `called` flag guards it);
however the installed wrapper is not auto-unsubscribed: because the
immediate invocation happens while the `unsub` closure is still
unassigned, the wrapper remains in the signal's subscriber set, both right
after `once` and after later `set` calls, until the unsubscribe closure
`once` returns is called explicitly. -/
theorem c8_amended (v0 v1 : Val) :
    (onceUser 20 (mkSignal emptyWorld v0 none) 0 0).2 = none ∧
    (onceUser 20 (mkSignal emptyWorld v0 none) 0 0).1.log = [(0, v0)] ∧
    (sigAt (onceUser 20 (mkSignal emptyWorld v0 none) 0 0).1 0).subs
      = [.onceW 0] ∧
    (onceAt (onceUser 20 (mkSignal emptyWorld v0 none) 0 0).1 0).called
      = true ∧
    (andThen (onceUser 20 (mkSignal emptyWorld v0 none) 0 0)
        (fun w => sigSet 20 w 0 v1)).1.log = [(0, v0)] ∧
    (sigAt (andThen (onceUser 20 (mkSignal emptyWorld v0 none) 0 0)
        (fun w => sigSet 20 w 0 v1)).1 0).subs = [.onceW 0] := by
  by_cases h : v0 = v1 <;>
    simp_all [andThen, onceUser, invokeSub, sigSet, notifySubs, sigGet, mkSignal,
      emptyWorld, addSet, delSet, findWrap, sigAt, withSig, withOnce, onceAt,
      defaultSig, defaultOnce, enqueueWrappers, Ne.symm]

/-! ## Cycle claim (C4) -/

set_option maxHeartbeats 2000000 in
/-- The mutual-reading scenario evaluated.  After `cyc3` the cycle is fully
wired: `a`'s scheduler subscribes to `b`'s backing signal 3 and `b`'s
scheduler to `a`'s backing signal 2.  The final write `cyc4` therefore
re-enters `a` while `a` is on the compute stack (running `a` publishes
into signal 2, which runs `b`, which publishes into signal 3, whose
subscriber is `a`'s scheduler).  The execution completes with no error:
value `17` for `a`, `18` for `b`, each compute function having run exactly
once more, and an empty compute stack. -/
theorem cycle_scenario_facts :
    (sigAt cyc3.1 2).subs = [.sched 1] ∧
    (sigAt cyc3.1 3).subs = [.sched 0] ∧
    (nodeAt cyc3.1 0).deps = [1, 3] ∧
    (nodeAt cyc3.1 1).deps = [2] ∧
    cyc4.2 = none ∧
    (sigAt cyc4.1 2).value = .vint 17 ∧
    (sigAt cyc4.1 3).value = .vint 18 ∧
    cyc4.1.runs = [0, 1, 0, 1, 0, 1] ∧
    cyc4.1.stack = [] := by
  simp [cyc4, cyc3, cyc2, cyc1, cycleW, cycleExprA, cycleExprB, andThen,
    mkComputed, runComputed, sigSet, notifySubs, invokeSub, eval, sigGet, rewire, mapSubsAll,
    finallyRestore, mkSignal, emptyWorld, addSet, delSet, findWrap, Val.truthy,
    enqueueWrappers, sigAt, nodeAt, onceAt, withSig, withNode, withOnce,
    defaultSig, defaultNode, defaultOnce]

end Microtastic

namespace Microtastic

theorem frozenConc_refl (w : World) (nid : NodeId) : FrozenConc w w nid :=
  ⟨rfl, rfl, rfl, rfl, fun _ => Iff.rfl⟩

theorem frozenConc_trans {w w1 w2 : World} {nid : NodeId}
    (h1 : FrozenConc w w1 nid) (h2 : FrozenConc w1 w2 nid) :
    FrozenConc w w2 nid :=
  ⟨h2.1.trans h1.1, h2.2.1.trans h1.2.1, h2.2.2.1.trans h1.2.2.1,
    h2.2.2.2.1.trans h1.2.2.2.1,
    fun s => (h2.2.2.2.2 s).trans (h1.2.2.2.2 s)⟩

/-- The `finally` clause of a run of node `m` preserves everything the
re-entrancy guard protects about a different node `nid`. -/
theorem finallyRestore_conc (w0 w : World) (m nid : NodeId)
    (prev : Option (List SigId)) (hm : m ≠ nid)
    (hn : nodeAt w0 nid = nodeAt w nid)
    (hlen : w0.nodes.length = w.nodes.length)
    (hslen : w0.sigs.length = w.sigs.length)
    (hmem : ∀ t, Sub.sched nid ∈ (sigAt w0 t).subs
      ↔ Sub.sched nid ∈ (sigAt w t).subs)
    (hprev : prev = w.activeCtx) :
    FrozenConc w (finallyRestore w0 m prev) nid := by
  refine ⟨hprev, ?_, ?_, hslen, fun t => hmem t⟩
  · unfold finallyRestore
    rw [nodeAt_withNode, if_neg (fun hcon => hm hcon.1)]
    exact hn
  · unfold finallyRestore
    show (withNode _ m _).nodes.length = w.nodes.length
    simp only [withNode, List.length_set]
    exact hlen

/-- While a node's `computing` flag is set, no interpreter operation
changes that node's closure state, subscribes or unsubscribes its
scheduler anywhere, or fails to restore the collection context: the
re-entrancy guard at line 350 makes the node inert for the duration of its
own run. -/
theorem frozen (fuel : Nat) :
    (∀ (w : World) (sub : Sub) (v : Val) (nid : NodeId),
      (nodeAt w nid).computing = true →
        FrozenConc w (invokeSub fuel w sub v).1 nid) ∧
    (∀ (w : World) (s : SigId) (pending : List Sub) (nid : NodeId),
      (nodeAt w nid).computing = true →
        FrozenConc w (notifySubs fuel w s pending).1 nid) ∧
    (∀ (w : World) (s : SigId) (v : Val) (nid : NodeId),
      (nodeAt w nid).computing = true →
        FrozenConc w (sigSet fuel w s v).1 nid) ∧
    (∀ (w : World) (m nid : NodeId),
      (nodeAt w nid).computing = true →
        FrozenConc w (runComputed fuel w m).1 nid) := by
  induction fuel with
  | zero =>
      refine ⟨?_, ?_, ?_, ?_⟩ <;> · intros; exact frozenConc_refl _ _
  | succ f ih =>
      obtain ⟨ihInv, ihNot, ihSet, ihRun⟩ := ih
      have hInv : ∀ (w : World) (sub : Sub) (v : Val) (nid : NodeId),
          (nodeAt w nid).computing = true →
            FrozenConc w (invokeSub (f + 1) w sub v).1 nid := by
        intro w sub v nid hc
        cases sub with
        | user fid => exact ⟨rfl, rfl, rfl, rfl, fun _ => Iff.rfl⟩
        | sched m =>
            by_cases hb : w.batchPending
            · simp only [invokeSub, hb, if_true]
              exact ⟨rfl, rfl, rfl, rfl, fun _ => Iff.rfl⟩
            · simp only [invokeSub, hb, if_false]
              exact ihRun w m nid hc
        | onceW oid =>
            by_cases hcall : (onceAt w oid).called
            · simp only [invokeSub, hcall, if_true]
              exact frozenConc_refl _ _
            · simp only [invokeSub, hcall, if_false, Bool.false_eq_true]
              cases hu : (onceAt (withOnce { w with log := w.log ++ [((onceAt w oid).fid, v)] } oid { onceAt w oid with called := true }) oid).unsub with
              | none =>
                  simp only [hu]
                  refine ⟨rfl, rfl, rfl, rfl, fun s => Iff.rfl⟩
              | some s2 =>
                  simp only [hu]
                  refine ⟨rfl, rfl, rfl, by simp [withSig, withOnce], fun s => ?_⟩
                  rw [sigAt_withSig]
                  split_ifs with hcase
                  · obtain ⟨h1, _⟩ := hcase
                    subst h1
                    rw [mem_delSet]
                    constructor
                    · exact And.left
                    · intro h1
                      exact ⟨h1, by intro hcon; cases hcon⟩
                  · exact Iff.rfl
      have hNot : ∀ (w : World) (s : SigId) (pending : List Sub) (nid : NodeId),
          (nodeAt w nid).computing = true →
            FrozenConc w (notifySubs (f + 1) w s pending).1 nid := by
        intro w s pending nid hc
        cases pending with
        | nil => exact frozenConc_refl _ _
        | cons sub rest =>
            simp only [notifySubs]
            rcases hi : invokeSub f w sub (sigAt w s).value with ⟨wi, ei⟩
            have h1 : FrozenConc w wi nid := by
              have := ihInv w sub ((sigAt w s).value) nid hc
              rw [hi] at this
              exact this
            cases ei with
            | none =>
                simp only [andThen]
                refine frozenConc_trans h1 (ihNot wi s rest nid ?_)
                rw [h1.2.1]
                exact hc
            | some e =>
                simp only [andThen]
                exact h1
      have hSet : ∀ (w : World) (s : SigId) (v : Val) (nid : NodeId),
          (nodeAt w nid).computing = true →
            FrozenConc w (sigSet (f + 1) w s v).1 nid := by
        intro w s v nid hc
        by_cases he : (sigAt w s).value = v
        · simp only [sigSet, he, if_true]
          exact frozenConc_refl _ _
        · simp only [sigSet, he, if_false]
          have hFC1 : FrozenConc w (withSig w s { sigAt w s with value := v }) nid := by
            refine ⟨rfl, rfl, rfl, by simp [withSig], fun t => ?_⟩
            rw [sigAt_withSig]
            split_ifs with hcase
            · obtain ⟨h1, _⟩ := hcase
              subst h1
              exact Iff.rfl
            · exact Iff.rfl
          by_cases hb : w.batchPending
          · have hb2 : (withSig w s { sigAt w s with value := v }).batchPending
                = true := hb
            simp only [hb2, if_true]
            set w1 := withSig w s { sigAt w s with value := v } with hw1
            have hfields := enqueueWrappers_fields s (sigAt w1 s).subs w1
            refine frozenConc_trans hFC1
              ⟨hfields.2.2.2.1, ?_, ?_, ?_, fun t => ?_⟩
            · exact nodeAt_congr _ _ _ hfields.2.1
            · rw [congrArg List.length hfields.2.1]
            · rw [congrArg List.length hfields.1]
            · rw [sigAt_congr _ _ t hfields.1]
          · have hb2 : (withSig w s { sigAt w s with value := v }).batchPending
                = false := by
              simp only [Bool.not_eq_true] at hb
              exact hb
            simp only [hb2, Bool.false_eq_true, if_false]
            refine frozenConc_trans hFC1 (ihNot _ s _ nid ?_)
            rw [hFC1.2.1]
            exact hc
      have hRun : ∀ (w : World) (m nid : NodeId),
          (nodeAt w nid).computing = true →
            FrozenConc w (runComputed (f + 1) w m).1 nid := by
        intro w m nid hc
        by_cases hcm : (nodeAt w m).computing
        · simp only [runComputed, hcm, if_true]
          exact frozenConc_refl _ _
        · by_cases hst : m ∈ w.stack
          · simp only [runComputed, hcm, hst, if_false, if_true, Bool.false_eq_true]
            exact frozenConc_refl _ _
          · have hmn : m ≠ nid := by
              intro e; subst e; rw [hc] at hcm; exact hcm rfl
            simp only [runComputed, hcm, hst, if_false, Bool.false_eq_true]
            set wbase : World :=
              ({ w with
                  stack := w.stack ++ [m],
                  activeCtx := some [],
                  runs := w.runs ++ [m] } : World) with hwbase
            set w1 : World := withNode wbase m { nodeAt w m with computing := true } with hw1def
            have heval := eval_spec (nodeAt w m).expr w1 [] rfl
            rw [heval]
            set w2 : World :=
              ({ w1 with activeCtx := some (readsAfter w1.sigs [] (nodeAt w m).expr) } : World) with hw2def
            have hn2 : nodeAt w2 nid = nodeAt w nid := by
              show nodeAt (withNode wbase m _) nid = nodeAt w nid
              rw [nodeAt_withNode]
              rw [if_neg (fun hcon => hmn hcon.1)]
              rfl
            have hc2 : (nodeAt w2 nid).computing = true := by rw [hn2]; exact hc
            have hlen2 : w2.nodes.length = w.nodes.length := by
              show (wbase.nodes.set m _).length = w.nodes.length
              simp
            have hslen2 : w2.sigs.length = w.sigs.length := rfl
            have hmem2 : ∀ t, Sub.sched nid ∈ (sigAt w2 t).subs
                ↔ Sub.sched nid ∈ (sigAt w t).subs := fun t => Iff.rfl
            rcases hset : sigSet f w2 (nodeAt w m).out (evalV w1.sigs (nodeAt w m).expr) with ⟨w3, e3⟩
            have h3 : FrozenConc w2 w3 nid := by
              have := ihSet w2 (nodeAt w m).out (evalV w1.sigs (nodeAt w m).expr) nid hc2
              rw [hset] at this
              exact this
            cases e3 with
            | some e =>
                simp only [hset]
                exact finallyRestore_conc w3 w m nid w.activeCtx hmn
                  (h3.2.1.trans hn2) (h3.2.2.1.trans hlen2)
                  (h3.2.2.2.1.trans hslen2)
                  (fun t => (h3.2.2.2.2 t).trans (hmem2 t)) rfl
            | none =>
                simp only [hset]
                exact finallyRestore_conc
                  (rewire w3 m (nodeAt w3 m).deps (w3.activeCtx.getD [])) w m nid
                  w.activeCtx hmn
                  ((rewire_nodeAt_ne w3 m (nodeAt w3 m).deps
                      (w3.activeCtx.getD []) nid hmn).trans (h3.2.1.trans hn2))
                  (((rewire_fields w3 m (nodeAt w3 m).deps
                      (w3.activeCtx.getD [])).2.2.2.2.2.2.2.2.1).trans
                    (h3.2.2.1.trans hlen2))
                  (((rewire_fields w3 m (nodeAt w3 m).deps
                      (w3.activeCtx.getD [])).2.2.2.2.2.2.2.2.2).trans
                    (h3.2.2.2.1.trans hslen2))
                  (fun t => ((rewire_mem_ne w3 m (nodeAt w3 m).deps
                      (w3.activeCtx.getD []) nid (Ne.symm hmn) t).trans
                    ((h3.2.2.2.2 t).trans (hmem2 t)))) rfl
      exact ⟨hInv, hNot, hSet, hRun⟩

end Microtastic

namespace Microtastic

set_option maxHeartbeats 2000000 in
theorem c1_dependency_tracking :
    (∀ (fuel : Nat) (w : World) (nid : NodeId) (w1 : World),
      (nodeAt w nid).computing = false →
      nid ∉ w.stack →
      nid < w.nodes.length →
      (∀ s, Sub.sched nid ∈ (sigAt w s).subs ↔ s ∈ (nodeAt w nid).deps) →
      (∀ d ∈ exprReads w.sigs (nodeAt w nid).expr, d < w.sigs.length) →
      runComputed (fuel + 1) w nid = (w1, none) →
      (nodeAt w1 nid).deps = exprReads w.sigs (nodeAt w nid).expr ∧
      (∀ s, Sub.sched nid ∈ (sigAt w1 s).subs ↔
        s ∈ exprReads w.sigs (nodeAt w nid).expr)) ∧
    (tog1.2 = none ∧ (sigAt tog1.1 3).value = .vstr "A" ∧
      (nodeAt tog1.1 0).deps = [0, 1] ∧ tog1.1.runs = [0] ∧
      tog2.2 = none ∧ (sigAt tog2.1 3).value = .vstr "A" ∧ tog2.1.runs = [0] ∧
      tog3.2 = none ∧ (sigAt tog3.1 3).value = .vstr "B2" ∧
      (nodeAt tog3.1 0).deps = [0, 2] ∧ tog3.1.runs = [0, 0] ∧
      tog4.2 = none ∧ (sigAt tog4.1 3).value = .vstr "B2" ∧
      tog4.1.runs = [0, 0] ∧
      tog5.2 = none ∧ (sigAt tog5.1 3).value = .vstr "B3" ∧
      tog5.1.runs = [0, 0, 0]) := by
  constructor
  · intro fuel w nid w1 hcf hst hlen hwire hreads hrun
    simp only [runComputed, hcf, Bool.false_eq_true, if_false, hst,
      ite_false, ite_true, if_neg, not_false_eq_true] at hrun
    set wbase : World :=
      ({ w with
          stack := w.stack ++ [nid],
          activeCtx := some [],
          runs := w.runs ++ [nid] } : World) with hwbase
    set w1i : World := withNode wbase nid { nodeAt w nid with computing := true }
      with hw1i
    rw [eval_spec (nodeAt w nid).expr w1i [] rfl] at hrun
    set w2 : World :=
      ({ w1i with
          activeCtx := some (readsAfter w1i.sigs [] (nodeAt w nid).expr) } : World)
      with hw2
    have h2n : nodeAt w2 nid = { nodeAt w nid with computing := true } := by
      show nodeAt (withNode wbase nid _) nid = _
      rw [nodeAt_withNode, if_pos ⟨rfl, hlen⟩]
    have hc2 : (nodeAt w2 nid).computing = true := by rw [h2n]
    rcases hset : sigSet fuel w2 (nodeAt w nid).out
        (evalV w1i.sigs (nodeAt w nid).expr) with ⟨w3, e3⟩
    rw [hset] at hrun
    have h3 : FrozenConc w2 w3 nid := by
      have := (frozen fuel).2.2.1 w2 (nodeAt w nid).out
        (evalV w1i.sigs (nodeAt w nid).expr) nid hc2
      rw [hset] at this
      exact this
    cases e3 with
    | some e => simp at hrun
    | none =>
        simp only [Prod.mk.injEq] at hrun
        obtain ⟨hA, -⟩ := hrun
        have hctx3 : w3.activeCtx
            = some (readsAfter w.sigs [] (nodeAt w nid).expr) := h3.1
        have hdeps3 : (nodeAt w3 nid).deps = (nodeAt w nid).deps := by
          rw [h3.2.1, h2n]
        have hl2 : w2.nodes.length = w.nodes.length := by
          show (wbase.nodes.set nid _).length = w.nodes.length
          simp
        have hlen3 : nid < w3.nodes.length := by
          rw [h3.2.2.1, hl2]; exact hlen
        have hslen3 : w3.sigs.length = w.sigs.length := h3.2.2.2.1
        have hmem3 : ∀ s, Sub.sched nid ∈ (sigAt w3 s).subs
            ↔ s ∈ (nodeAt w nid).deps :=
          fun s => (h3.2.2.2.2 s).trans (hwire s)
        have hnd : nid < (rewire w3 nid (nodeAt w3 nid).deps
            (w3.activeCtx.getD [])).nodes.length := by
          rw [(rewire_fields w3 nid (nodeAt w3 nid).deps
            (w3.activeCtx.getD [])).2.2.2.2.2.2.2.2.1]
          exact hlen3
        constructor
        · rw [← hA]
          unfold finallyRestore
          rw [nodeAt_withNode, if_pos ⟨rfl, hnd⟩]
          show (nodeAt (rewire w3 nid (nodeAt w3 nid).deps
            (w3.activeCtx.getD [])) nid).deps = _
          rw [rewire_nodeAt_self _ _ _ _ hlen3]
          show w3.activeCtx.getD [] = _
          rw [hctx3]
          rfl
        · intro s
          rw [← hA, hctx3]
          simp only [Option.getD_some]
          have hpre : Sub.sched nid ∈ (sigAt w3 s).subs
              ↔ s ∈ (nodeAt w3 nid).deps := by
            rw [hdeps3]; exact hmem3 s
          have hnew : ∀ d ∈ readsAfter w.sigs [] (nodeAt w nid).expr,
              d < w3.sigs.length := by
            intro d hd
            rw [hslen3]
            exact hreads d hd
          exact rewire_mem_self w3 nid (nodeAt w3 nid).deps
            (readsAfter w.sigs [] (nodeAt w nid).expr) s hpre hnew
  · simp [tog5, tog4, tog3, tog2, tog1, toggleW, toggleExpr, andThen, mkComputed,
      runComputed, sigSet, notifySubs, invokeSub, eval, sigGet, rewire, mapSubsAll,
      finallyRestore, mkSignal, emptyWorld, addSet, delSet, findWrap, Val.truthy,
      enqueueWrappers, sigAt, nodeAt, onceAt, withSig, withNode, withOnce,
      defaultSig, defaultNode, defaultOnce]

theorem sigAt_subs_nil (w : World) (h : ∀ st ∈ w.sigs, st.subs = [])
    (s : SigId) : (sigAt w s).subs = [] := by
  unfold sigAt
  rcases hq : w.sigs[s]? with _ | st
  · rw [List.getD_eq_getElem?_getD, hq]; rfl
  · rw [List.getD_eq_getElem?_getD, hq]
    exact h st (List.getElem?_mem hq)

theorem c1_witness :
    (nodeAt (runComputed 20 togPre 0).1 0).deps
      = exprReads togPre.sigs (nodeAt togPre 0).expr ∧
    (∀ s, Sub.sched 0 ∈ (sigAt (runComputed 20 togPre 0).1 s).subs ↔
      s ∈ exprReads togPre.sigs (nodeAt togPre 0).expr) := by
  have h2 : (runComputed 20 togPre 0).2 = none := by
    simp [togPre, toggleW, toggleExpr, runComputed, sigSet, notifySubs, invokeSub,
      eval, sigGet, rewire, mapSubsAll, finallyRestore, mkSignal, emptyWorld,
      addSet, delSet, findWrap, Val.truthy, enqueueWrappers, sigAt, nodeAt,
      withSig, withNode, defaultSig, defaultNode]
  have hrun : runComputed 20 togPre 0 = ((runComputed 20 togPre 0).1, none) := by
    rw [← h2]
  have hwire : ∀ s, Sub.sched 0 ∈ (sigAt togPre s).subs
      ↔ s ∈ (nodeAt togPre 0).deps := by
    intro s
    rw [sigAt_subs_nil togPre (by
      intro st hst
      simp [togPre, toggleW, mkSignal, emptyWorld] at hst
      rcases hst with h | h | h | h <;> rw [h]) s]
    simp [togPre, nodeAt]
  exact c1_dependency_tracking.1 19 togPre 0 (runComputed 20 togPre 0).1
    (by rfl) (by simp [togPre, toggleW, mkSignal, emptyWorld]) (by decide)
    hwire (by decide) hrun

end Microtastic

namespace Microtastic

/-- C4, amended (part 1 is the general statement): when evaluating a
computed signal would re-enter a computed whose `computing` flag is set —
which is the case for every node on the compute stack — `run()` returns
immediately, silently and without error: the re-entrancy guard at line 350
runs before the compute-stack check at line 353, so the cycle-error branch
never fires.  Part 2: in the two-mutually-reading-computeds scenario the
final write completes with no error (instead of the claimed cycle error),
each node recomputing exactly once, and the compute stack is left empty —
no stack overflow, no error. -/
theorem c4_amended :
    (∀ (fuel : Nat) (w : World) (nid : NodeId),
      (nodeAt w nid).computing = true →
      runComputed (fuel + 1) w nid = (w, none)) ∧
    (cyc4.2 = none ∧ (sigAt cyc4.1 2).value = .vint 17 ∧
      (sigAt cyc4.1 3).value = .vint 18 ∧ cyc4.1.runs = [0, 1, 0, 1, 0, 1] ∧
      cyc4.1.stack = []) := by
  constructor
  · intro fuel w nid hc
    simp only [runComputed, hc, if_true]
  · exact ⟨cycle_scenario_facts.2.2.2.2.1, cycle_scenario_facts.2.2.2.2.2.1,
      cycle_scenario_facts.2.2.2.2.2.2.1, cycle_scenario_facts.2.2.2.2.2.2.2.1,
      cycle_scenario_facts.2.2.2.2.2.2.2.2⟩

/-- C4, counterexample to the original claim: two computed signals that
each read the other are fully wired (each node's scheduler is subscribed
to the other's backing signal, and each node's dependency set names the
other's backing signal), yet the write that drives the mutual recompute
completes with no error at all: the re-entered run is silently skipped by
the `computing` guard, both backing signals are published, and the run log
is finite, so no cycle error with a '->' message is ever raised. -/
theorem c4_counterexample :
    (sigAt cyc3.1 2).subs = [.sched 1] ∧
    (sigAt cyc3.1 3).subs = [.sched 0] ∧
    (nodeAt cyc3.1 0).deps = [1, 3] ∧
    (nodeAt cyc3.1 1).deps = [2] ∧
    cyc4.2 = none ∧
    (sigAt cyc4.1 2).value = .vint 17 ∧
    (sigAt cyc4.1 3).value = .vint 18 ∧
    cyc4.1.runs = [0, 1, 0, 1, 0, 1] :=
  ⟨cycle_scenario_facts.1, cycle_scenario_facts.2.1,
   cycle_scenario_facts.2.2.1, cycle_scenario_facts.2.2.2.1,
   cycle_scenario_facts.2.2.2.2.1, cycle_scenario_facts.2.2.2.2.2.1,
   cycle_scenario_facts.2.2.2.2.2.2.1,
   cycle_scenario_facts.2.2.2.2.2.2.2.1⟩

/-- C4, witness: a world whose single node is flagged `computing`; its
`run()` is the identity with no error. -/
theorem c4_witness :
    runComputed 5 computingStub 0 = (computingStub, none) :=
  c4_amended.1 4 computingStub 0 (by rfl)

/-- Under a closed batch flag, no interpreter operation flips the flag or
touches the queue: queue traffic happens only while `_batchPending` is
true. -/
theorem queuePreserve (fuel : Nat) :
    (∀ (w : World) (sub : Sub) (v : Val), w.batchPending = false →
      ((invokeSub fuel w sub v).1.batchPending = false ∧
        (invokeSub fuel w sub v).1.batchQueue = w.batchQueue)) ∧
    (∀ (w : World) (s : SigId) (pending : List Sub), w.batchPending = false →
      ((notifySubs fuel w s pending).1.batchPending = false ∧
        (notifySubs fuel w s pending).1.batchQueue = w.batchQueue)) ∧
    (∀ (w : World) (s : SigId) (v : Val), w.batchPending = false →
      ((sigSet fuel w s v).1.batchPending = false ∧
        (sigSet fuel w s v).1.batchQueue = w.batchQueue)) ∧
    (∀ (w : World) (m : NodeId), w.batchPending = false →
      ((runComputed fuel w m).1.batchPending = false ∧
        (runComputed fuel w m).1.batchQueue = w.batchQueue)) ∧
    (∀ (w : World) (items : List QItem), w.batchPending = false →
      ((flushQueue fuel w items).1.batchPending = false ∧
        (flushQueue fuel w items).1.batchQueue = w.batchQueue)) := by
  induction fuel with
  | zero =>
      refine ⟨?_, ?_, ?_, ?_, ?_⟩
      · intro w sub v h; exact ⟨h, rfl⟩
      · intro w s pending h; exact ⟨h, rfl⟩
      · intro w s v h; exact ⟨h, rfl⟩
      · intro w m h; exact ⟨h, rfl⟩
      · intro w items h; exact ⟨h, rfl⟩
  | succ f ih =>
      obtain ⟨ihInv, ihNot, ihSet, ihRun, ihFl⟩ := ih
      have hInv : ∀ (w : World) (sub : Sub) (v : Val), w.batchPending = false →
          ((invokeSub (f + 1) w sub v).1.batchPending = false ∧
            (invokeSub (f + 1) w sub v).1.batchQueue = w.batchQueue) := by
        intro w sub v hb
        cases sub with
        | user fid => exact ⟨hb, rfl⟩
        | sched m =>
            have hb2 : w.batchPending ≠ true := by rw [hb]; simp
            simp only [invokeSub, hb, Bool.false_eq_true, if_false]
            exact ihRun w m hb
        | onceW oid =>
            by_cases hcall : (onceAt w oid).called
            · simp only [invokeSub, hcall, if_true]
              exact ⟨hb, by trivial⟩
            · simp only [invokeSub, hcall, Bool.false_eq_true, if_false]
              cases hu : (onceAt (withOnce { w with log := w.log ++ [((onceAt w oid).fid, v)] } oid { onceAt w oid with called := true }) oid).unsub with
              | none => simp only [hu]; exact ⟨hb, rfl⟩
              | some s2 => simp only [hu]; exact ⟨hb, rfl⟩
      have hNot : ∀ (w : World) (s : SigId) (pending : List Sub),
          w.batchPending = false →
          ((notifySubs (f + 1) w s pending).1.batchPending = false ∧
            (notifySubs (f + 1) w s pending).1.batchQueue = w.batchQueue) := by
        intro w s pending hb
        cases pending with
        | nil => exact ⟨hb, rfl⟩
        | cons sub rest =>
            simp only [notifySubs]
            rcases hi : invokeSub f w sub (sigAt w s).value with ⟨wi, ei⟩
            have h1 : wi.batchPending = false ∧ wi.batchQueue = w.batchQueue := by
              have := ihInv w sub ((sigAt w s).value) hb
              rw [hi] at this
              exact this
            cases ei with
            | none =>
                simp only [andThen]
                have h2 := ihNot wi s rest h1.1
                exact ⟨h2.1, h2.2.trans h1.2⟩
            | some e => simp only [andThen]; exact h1
      have hSet : ∀ (w : World) (s : SigId) (v : Val), w.batchPending = false →
          ((sigSet (f + 1) w s v).1.batchPending = false ∧
            (sigSet (f + 1) w s v).1.batchQueue = w.batchQueue) := by
        intro w s v hb
        by_cases he : (sigAt w s).value = v
        · simp only [sigSet, he, if_true]
          exact ⟨hb, by trivial⟩
        · simp only [sigSet, he, if_false]
          have hb2 : (withSig w s { sigAt w s with value := v }).batchPending
              = false := hb
          simp only [hb2, Bool.false_eq_true, if_false]
          have h2 := ihNot (withSig w s { sigAt w s with value := v }) s
            (sigAt (withSig w s { sigAt w s with value := v }) s).subs hb2
          exact ⟨h2.1, h2.2⟩
      have hRun : ∀ (w : World) (m : NodeId), w.batchPending = false →
          ((runComputed (f + 1) w m).1.batchPending = false ∧
            (runComputed (f + 1) w m).1.batchQueue = w.batchQueue) := by
        intro w m hb
        by_cases hcm : (nodeAt w m).computing
        · simp only [runComputed, hcm, if_true]
          exact ⟨hb, by trivial⟩
        · by_cases hst : m ∈ w.stack
          · simp only [runComputed, hcm, hst, Bool.false_eq_true, if_false,
              if_true]
            exact ⟨hb, by trivial⟩
          · simp only [runComputed, hcm, hst, Bool.false_eq_true, if_false]
            set wbase : World :=
              ({ w with
                  stack := w.stack ++ [m],
                  activeCtx := some [],
                  runs := w.runs ++ [m] } : World) with hwbase
            set w1 : World := withNode wbase m { nodeAt w m with computing := true }
              with hw1
            rw [eval_spec (nodeAt w m).expr w1 [] rfl]
            set w2 : World :=
              ({ w1 with
                  activeCtx := some (readsAfter w1.sigs [] (nodeAt w m).expr) } : World)
              with hw2
            have hb2 : w2.batchPending = false := hb
            rcases hset : sigSet f w2 (nodeAt w m).out
                (evalV w1.sigs (nodeAt w m).expr) with ⟨w3, e3⟩
            have h3 : w3.batchPending = false ∧ w3.batchQueue = w.batchQueue := by
              have := ihSet w2 (nodeAt w m).out (evalV w1.sigs (nodeAt w m).expr) hb2
              rw [hset] at this
              exact this
            cases e3 with
            | some e =>
                simp only [hset]
                exact ⟨h3.1, h3.2⟩
            | none =>
                simp only [hset]
                refine ⟨?_, ?_⟩
                · show (rewire w3 m (nodeAt w3 m).deps
                    (w3.activeCtx.getD [])).batchPending = false
                  rw [(rewire_fields w3 m (nodeAt w3 m).deps
                    (w3.activeCtx.getD [])).2.1]
                  exact h3.1
                · show (rewire w3 m (nodeAt w3 m).deps
                    (w3.activeCtx.getD [])).batchQueue = w.batchQueue
                  rw [(rewire_fields w3 m (nodeAt w3 m).deps
                    (w3.activeCtx.getD [])).2.2.1]
                  exact h3.2
      have hFl : ∀ (w : World) (items : List QItem), w.batchPending = false →
          ((flushQueue (f + 1) w items).1.batchPending = false ∧
            (flushQueue (f + 1) w items).1.batchQueue = w.batchQueue) := by
        intro w items hb
        cases items with
        | nil => exact ⟨hb, rfl⟩
        | cons item rest =>
            cases item with
            | wrap sub =>
                simp only [flushQueue]
                cases hf : findWrap w.batchWrappers sub with
                | none =>
                    simp only [hf]
                    exact ihFl w rest hb
                | some s =>
                    simp only [hf]
                    rcases hg : sigGet w s with ⟨vg, wg⟩
                    have hwg : wg.batchPending = false ∧ wg.batchQueue = w.batchQueue := by
                      unfold sigGet at hg
                      cases hctx : w.activeCtx <;> rw [hctx] at hg <;>
                        · injection hg with h1 h2
                          rw [← h2]
                          exact ⟨hb, rfl⟩
                    simp only [hg]
                    rcases hi : invokeSub f wg sub vg with ⟨wi, ei⟩
                    have h1 : wi.batchPending = false ∧ wi.batchQueue = wg.batchQueue := by
                      have := ihInv wg sub vg hwg.1
                      rw [hi] at this
                      exact this
                    cases ei with
                    | none =>
                        simp only [andThen]
                        have h2 := ihFl wi rest h1.1
                        exact ⟨h2.1, (h2.2.trans h1.2).trans hwg.2⟩
                    | some e =>
                        simp only [andThen]
                        exact ⟨h1.1, h1.2.trans hwg.2⟩
            | runNode m =>
                simp only [flushQueue]
                rcases hr : runComputed f w m with ⟨wr, er⟩
                have h1 : wr.batchPending = false ∧ wr.batchQueue = w.batchQueue := by
                  have := ihRun w m hb
                  rw [hr] at this
                  exact this
                cases er with
                | none =>
                    simp only [andThen]
                    have h2 := ihFl wr rest h1.1
                    exact ⟨h2.1, h2.2.trans h1.2⟩
                | some e =>
                    simp only [andThen]
                    exact h1
      exact ⟨hInv, hNot, hSet, hRun, hFl⟩

set_option maxHeartbeats 1000000 in
/-- C7, amended.  Nested batches are not transparent: every `batch()` call
— inner ones included — flushes on completion, because line 553 uses a
single boolean flag rather than a depth counter.  Part 1 (general): a
completed `effect`/`batch` call always returns with `_batchPending`
cleared and the queue empty — an inner batch that completes while an outer
batch is open therefore flushes the queue early and turns batching off for
the rest of the outer batch.  Part 2 (the scenario): with one subscriber,
`batch(() => { set(1); batch(() => {}); set(2) })` invokes the subscriber
during the outer batch at the inner flush with 1, then synchronously at
the following write with 2 — writes after the inner call are not
coalesced. -/
theorem c7_amended :
    (∀ (fuel : Nat) (w : World) (ops : List Op) (w1 : World),
      effect fuel w ops = (w1, none) →
      w1.batchPending = false ∧ w1.batchQueue = []) ∧
    (batchScenario.2 = none ∧
      batchScenario.1.log = [(0, .vint 0), (0, .vint 1), (0, .vint 2)] ∧
      batchScenario.1.batchPending = false ∧
      batchScenario.1.batchQueue = []) := by
  constructor
  · intro fuel w ops w1 heff
    cases fuel with
    | zero => simp [effect] at heff
    | succ f =>
        simp only [effect] at heff
        rcases hops : runOps f { w with batchPending := true } ops with ⟨w2, e2⟩
        rw [hops] at heff
        cases e2 with
        | none =>
            have heff2 : flushQueue f
                { w2 with batchPending := false, batchQueue := [] }
                w2.batchQueue = (w1, none) := heff
            have hq := (queuePreserve f).2.2.2.2
              { w2 with batchPending := false, batchQueue := [] }
              w2.batchQueue rfl
            rw [heff2] at hq
            exact hq
        | some e =>
            have heff2 :
                (match flushQueue f
                    { w2 with batchPending := false, batchQueue := [] }
                    w2.batchQueue with
                  | (w4, none) => (w4, some e)
                  | (w4, some e2) => (w4, some e2)) = (w1, none) := heff
            rcases hfl : flushQueue f
                { w2 with batchPending := false, batchQueue := [] }
                w2.batchQueue with ⟨w4, e4⟩
            rw [hfl] at heff2
            cases e4 <;> simp at heff2
  · exact batch_scenario_facts

/-- C7, witness: an empty batch on a fresh signal completes with the flag
cleared and an empty queue. -/
theorem c7_witness :
    (effect 5 (mkSignal emptyWorld (.vint 0) none) []).1.batchPending = false ∧
    (effect 5 (mkSignal emptyWorld (.vint 0) none) []).1.batchQueue = [] := by
  have h2 : effect 5 (mkSignal emptyWorld (.vint 0) none) []
      = ((effect 5 (mkSignal emptyWorld (.vint 0) none) []).1, none) := by
    have hn : (effect 5 (mkSignal emptyWorld (.vint 0) none) []).2 = none := by
      simp [effect, runOps, flushQueue, mkSignal, emptyWorld]
    rw [← hn]
  exact c7_amended.1 5 (mkSignal emptyWorld (.vint 0) none) []
    (effect 5 (mkSignal emptyWorld (.vint 0) none) []).1 h2

end Microtastic

namespace Microtastic

theorem rewire_value (w : World) (m : NodeId) (a b : List SigId) (s : SigId) :
    (sigAt (rewire w m a b) s).value = (sigAt w s).value := by
  unfold rewire
  rw [sigAt_withNode]
  exact ((mapSubsAll_value_name _ _ _ s).1).trans
    ((mapSubsAll_value_name _ _ _ s).1)

theorem rewire_out (w : World) (m : NodeId) (a b : List SigId) (k : NodeId) :
    (nodeAt (rewire w m a b) k).out = (nodeAt w k).out := by
  by_cases h : m = k
  · subst h
    by_cases hl : m < w.nodes.length
    · rw [rewire_nodeAt_self w m a b hl]
    · unfold rewire
      rw [nodeAt_withNode]
      have hlen := (mapSubsAll_fields (fun l => addSet l (.sched m))
        (b.filter fun d => d ∉ a)
        (mapSubsAll (fun l => delSet l (.sched m)) w
          (a.filter fun d => d ∉ b))).1.trans
        (mapSubsAll_fields (fun l => delSet l (.sched m))
          (a.filter fun d => d ∉ b) w).1
      rw [if_neg (by
        rintro ⟨-, hcon⟩
        rw [congrArg List.length hlen] at hcon
        exact hl hcon)]
      rw [nodeAt_congr _ _ _ hlen]
  · rw [rewire_nodeAt_ne _ _ _ _ _ h]

theorem detachedConc_refl (w : World) (nid : NodeId) (h : Detached w nid) :
    DetachedConc w w nid :=
  ⟨h, rfl, rfl, fun _ => rfl, rfl⟩

theorem detachedConc_trans {w w1 w2 : World} {nid : NodeId}
    (h1 : DetachedConc w w1 nid) (h2 : DetachedConc w1 w2 nid) :
    DetachedConc w w2 nid := by
  refine ⟨h2.1, ?_, h2.2.2.1.trans h1.2.2.1,
    fun k => (h2.2.2.2.1 k).trans (h1.2.2.2.1 k),
    h2.2.2.2.2.trans h1.2.2.2.2⟩
  have hh := h2.2.1
  rw [h1.2.2.2.1 nid] at hh
  exact hh.trans h1.2.1

set_option maxHeartbeats 1000000 in
/-- A detached node is inert: no subscriber invocation, notification loop,
write or run of another node publishes into its backing signal, re-runs its
compute function, or re-attaches it. -/
theorem detachedRun (fuel : Nat) :
    (∀ (w : World) (sub : Sub) (v : Val) (nid : NodeId),
      Detached w nid → OutSep w nid → sub ≠ .sched nid →
      DetachedConc w (invokeSub fuel w sub v).1 nid) ∧
    (∀ (w : World) (s : SigId) (pending : List Sub) (nid : NodeId),
      Detached w nid → OutSep w nid → Sub.sched nid ∉ pending →
      DetachedConc w (notifySubs fuel w s pending).1 nid) ∧
    (∀ (w : World) (s : SigId) (v : Val) (nid : NodeId),
      Detached w nid → OutSep w nid → s ≠ (nodeAt w nid).out →
      DetachedConc w (sigSet fuel w s v).1 nid) ∧
    (∀ (w : World) (m nid : NodeId),
      Detached w nid → OutSep w nid → m ≠ nid →
      DetachedConc w (runComputed fuel w m).1 nid) := by
  induction fuel with
  | zero =>
      refine ⟨?_, ?_, ?_, ?_⟩
      · intro w sub v nid hD _ _; exact detachedConc_refl w nid hD
      · intro w s pending nid hD _ _; exact detachedConc_refl w nid hD
      · intro w s v nid hD _ _; exact detachedConc_refl w nid hD
      · intro w m nid hD _ _; exact detachedConc_refl w nid hD
  | succ f ih =>
      obtain ⟨ihInv, ihNot, ihSet, ihRun⟩ := ih
      have hInv : ∀ (w : World) (sub : Sub) (v : Val) (nid : NodeId),
          Detached w nid → OutSep w nid → sub ≠ .sched nid →
          DetachedConc w (invokeSub (f + 1) w sub v).1 nid := by
        intro w sub v nid hD hO hs
        cases sub with
        | user fid =>
            exact ⟨hD, rfl, rfl, fun _ => rfl, rfl⟩
        | sched m =>
            have hmn : m ≠ nid := by
              intro e; subst e; exact hs rfl
            by_cases hb : w.batchPending
            · simp only [invokeSub, hb, if_true]
              refine ⟨⟨hD.1, ?_, ?_⟩, rfl, rfl, fun _ => rfl, rfl⟩
              · intro hmem
                rcases (mem_addSet _ _ _).1 hmem with h1 | h1
                · exact hD.2.1 h1
                · exact hmn (QItem.runNode.inj h1).symm
              · intro hmem
                rcases (mem_addSet _ _ _).1 hmem with h1 | h1
                · exact hD.2.2 h1
                · cases h1
            · simp only [invokeSub, hb, Bool.false_eq_true, if_false]
              exact ihRun w m nid hD hO hmn
        | onceW oid =>
            by_cases hcall : (onceAt w oid).called
            · simp only [invokeSub, hcall, if_true]
              exact detachedConc_refl w nid hD
            · simp only [invokeSub, hcall, Bool.false_eq_true, if_false]
              cases hu : (onceAt (withOnce { w with log := w.log ++ [((onceAt w oid).fid, v)] } oid { onceAt w oid with called := true }) oid).unsub with
              | none =>
                  simp only [hu]
                  exact ⟨hD, rfl, rfl, fun _ => rfl, rfl⟩
              | some s2 =>
                  simp only [hu]
                  refine ⟨⟨?_, hD.2.1, hD.2.2⟩, ?_, rfl, fun _ => rfl, rfl⟩
                  · intro t
                    rw [sigAt_withSig]
                    split_ifs with hcase
                    · obtain ⟨h1, _⟩ := hcase
                      subst h1
                      rw [mem_delSet]
                      rintro ⟨hmem, -⟩
                      exact hD.1 s2 hmem
                    · exact hD.1 t
                  · rw [sigAt_withSig]
                    split_ifs with hcase
                    · obtain ⟨h1, _⟩ := hcase
                      rw [← h1]
                      rfl
                    · rfl
      have hNot : ∀ (w : World) (s : SigId) (pending : List Sub) (nid : NodeId),
          Detached w nid → OutSep w nid → Sub.sched nid ∉ pending →
          DetachedConc w (notifySubs (f + 1) w s pending).1 nid := by
        intro w s pending nid hD hO hp
        cases pending with
        | nil => exact detachedConc_refl w nid hD
        | cons sub rest =>
            simp only [notifySubs]
            rcases hi : invokeSub f w sub (sigAt w s).value with ⟨wi, ei⟩
            have h1 : DetachedConc w wi nid := by
              have := ihInv w sub ((sigAt w s).value) nid hD hO
                (fun e => hp (e ▸ List.mem_cons_self _ _))
              rw [hi] at this
              exact this
            cases ei with
            | none =>
                simp only [andThen]
                refine detachedConc_trans h1 (ihNot wi s rest nid h1.1 ?_ ?_)
                · intro k hk
                  rw [h1.2.2.2.1 k, h1.2.2.2.1 nid]
                  exact hO k hk
                · exact fun hmem => hp (List.mem_cons_of_mem _ hmem)
            | some e =>
                simp only [andThen]
                exact h1
      have hSet : ∀ (w : World) (s : SigId) (v : Val) (nid : NodeId),
          Detached w nid → OutSep w nid → s ≠ (nodeAt w nid).out →
          DetachedConc w (sigSet (f + 1) w s v).1 nid := by
        intro w s v nid hD hO hs
        by_cases he : (sigAt w s).value = v
        · simp only [sigSet, he, if_true]
          exact detachedConc_refl w nid hD
        · simp only [sigSet, he, if_false]
          have hFC1 : DetachedConc w (withSig w s { sigAt w s with value := v }) nid := by
            refine ⟨⟨?_, hD.2.1, hD.2.2⟩, ?_, rfl, fun _ => rfl, rfl⟩
            · intro t
              rw [sigAt_withSig]
              split_ifs with hcase
              · obtain ⟨h1, _⟩ := hcase
                subst h1
                exact hD.1 s
              · exact hD.1 t
            · rw [sigAt_withSig]
              rw [if_neg (fun hcase => hs hcase.1)]
          have hD1 : Detached (withSig w s { sigAt w s with value := v }) nid :=
            hFC1.1
          by_cases hb : w.batchPending
          · have hb2 : (withSig w s { sigAt w s with value := v }).batchPending
                = true := hb
            simp only [hb2, if_true]
            set w1 := withSig w s { sigAt w s with value := v } with hw1
            have hfields := enqueueWrappers_fields s (sigAt w1 s).subs w1
            refine detachedConc_trans hFC1
              ⟨⟨?_, ?_, ?_⟩, ?_, ?_, fun k => ?_, ?_⟩
            · intro t
              rw [sigAt_congr _ _ t hfields.1]
              exact hD1.1 t
            · intro hmem
              rcases mem_enqueueWrappers_batchQueue s (sigAt w1 s).subs w1 _ hmem
                with h1 | ⟨t, ht, hteq⟩
              · exact hD1.2.1 h1
              · cases hteq
            · intro hmem
              rcases mem_enqueueWrappers_batchQueue s (sigAt w1 s).subs w1 _ hmem
                with h1 | ⟨t, ht, hteq⟩
              · exact hD1.2.2 h1
              · rw [← QItem.wrap.inj hteq] at ht
                exact hD1.1 s ht
            · rw [sigAt_congr _ _ _ hfields.1]
            · exact congrArg (List.count nid) hfields.2.2.2.2.2.2.2
            · rw [nodeAt_congr _ _ k hfields.2.1]
            · rw [congrArg List.length hfields.2.1]
          · have hb2 : (withSig w s { sigAt w s with value := v }).batchPending
                = false := by
              simp only [Bool.not_eq_true] at hb
              exact hb
            simp only [hb2, Bool.false_eq_true, if_false]
            refine detachedConc_trans hFC1
              (ihNot _ s _ nid hD1 ?_ (fun hmem => hD1.1 s hmem))
            intro k hk
            rw [hFC1.2.2.2.1 k, hFC1.2.2.2.1 nid]
            exact hO k hk
      have hRun : ∀ (w : World) (m nid : NodeId),
          Detached w nid → OutSep w nid → m ≠ nid →
          DetachedConc w (runComputed (f + 1) w m).1 nid := by
        intro w m nid hD hO hmn
        by_cases hcm : (nodeAt w m).computing
        · simp only [runComputed, hcm, if_true]
          exact detachedConc_refl w nid hD
        · by_cases hst : m ∈ w.stack
          · simp only [runComputed, hcm, hst, Bool.false_eq_true, if_false,
              if_true]
            exact detachedConc_refl w nid hD
          · simp only [runComputed, hcm, hst, Bool.false_eq_true, if_false]
            set wbase : World :=
              ({ w with
                  stack := w.stack ++ [m],
                  activeCtx := some [],
                  runs := w.runs ++ [m] } : World) with hwbase
            set w1 : World := withNode wbase m { nodeAt w m with computing := true }
              with hw1
            rw [eval_spec (nodeAt w m).expr w1 [] rfl]
            set w2 : World :=
              ({ w1 with
                  activeCtx := some (readsAfter w1.sigs [] (nodeAt w m).expr) } : World)
              with hw2
            have houts2 : ∀ k, (nodeAt w2 k).out = (nodeAt w k).out := by
              intro k
              show (nodeAt (withNode wbase m _) k).out = _
              rw [nodeAt_withNode]
              split_ifs with h
              · obtain ⟨h1, _⟩ := h; subst h1; rfl
              · rfl
            have hcount2 : w2.runs.count nid = w.runs.count nid := by
              show (w.runs ++ [m]).count nid = w.runs.count nid
              simp [List.count_append, List.count_cons, hmn]
            have hlen2 : w2.nodes.length = w.nodes.length := by
              show (wbase.nodes.set m _).length = w.nodes.length
              simp
            have hD2 : Detached w2 nid := hD
            have hO2 : OutSep w2 nid := by
              intro k hk
              rw [houts2 k, houts2 nid]
              exact hO k hk
            have hC2 : DetachedConc w w2 nid := ⟨hD2, rfl, hcount2, houts2, hlen2⟩
            have houtne : (nodeAt w m).out ≠ (nodeAt w2 nid).out := by
              rw [houts2 nid]
              exact hO m hmn
            rcases hset : sigSet f w2 (nodeAt w m).out
                (evalV w1.sigs (nodeAt w m).expr) with ⟨w3, e3⟩
            have h3 : DetachedConc w2 w3 nid := by
              have := ihSet w2 (nodeAt w m).out (evalV w1.sigs (nodeAt w m).expr)
                nid hD2 hO2 houtne
              rw [hset] at this
              exact this
            have hC3 : DetachedConc w w3 nid := detachedConc_trans hC2 h3
            cases e3 with
            | some e =>
                simp only [hset]
                refine ⟨hC3.1, hC3.2.1, hC3.2.2.1, fun k => ?_, ?_⟩
                · show (nodeAt (withNode _ m _) k).out = _
                  rw [nodeAt_withNode]
                  split_ifs with h
                  · obtain ⟨h1, _⟩ := h
                    subst h1
                    exact hC3.2.2.2.1 m
                  · exact hC3.2.2.2.1 k
                · show ((_ : World).nodes.set m _).length = w.nodes.length
                  simp only [List.length_set]
                  exact hC3.2.2.2.2
            | none =>
                simp only [hset]
                have hC4 : DetachedConc w
                    (rewire w3 m (nodeAt w3 m).deps (w3.activeCtx.getD [])) nid := by
                  refine detachedConc_trans hC3
                    ⟨⟨?_, ?_, ?_⟩, ?_, ?_, fun k => ?_, ?_⟩
                  · intro t
                    rw [rewire_mem_ne w3 m (nodeAt w3 m).deps
                      (w3.activeCtx.getD []) nid (Ne.symm hmn) t]
                    exact hC3.1.1 t
                  · rw [(rewire_fields w3 m (nodeAt w3 m).deps
                      (w3.activeCtx.getD [])).2.2.1]
                    exact hC3.1.2.1
                  · rw [(rewire_fields w3 m (nodeAt w3 m).deps
                      (w3.activeCtx.getD [])).2.2.1]
                    exact hC3.1.2.2
                  · exact rewire_value w3 m _ _ _
                  · exact congrArg (List.count nid)
                      (rewire_fields w3 m _ _).2.2.2.2.2.2.1
                  · exact rewire_out w3 m _ _ k
                  · exact (rewire_fields w3 m _ _).2.2.2.2.2.2.2.2.1
                refine ⟨hC4.1, hC4.2.1, hC4.2.2.1, fun k => ?_, ?_⟩
                · show (nodeAt (withNode _ m _) k).out = _
                  rw [nodeAt_withNode]
                  split_ifs with h
                  · obtain ⟨h1, _⟩ := h
                    subst h1
                    exact hC4.2.2.2.1 m
                  · exact hC4.2.2.2.1 k
                · show ((_ : World).nodes.set m _).length = w.nodes.length
                  simp only [List.length_set]
                  exact hC4.2.2.2.2
      exact ⟨hInv, hNot, hSet, hRun⟩


theorem nodeAt_ge (w : World) (k : NodeId) (h : w.nodes.length ≤ k) :
    nodeAt w k = defaultNode := by
  simp [nodeAt, List.getD_eq_getElem?_getD, List.getElem?_eq_none h]

/-- A sequence of writes that never targets a detached node's backing
signal leaves the node detached, with its value, its run count and every
backing-signal assignment unchanged. -/
theorem applySets_detached (fuel : Nat) (ops : List (SigId × Val)) :
    ∀ (w : World) (nid : NodeId),
      Detached w nid → OutSep w nid →
      (∀ p ∈ ops, p.1 ≠ (nodeAt w nid).out) →
      DetachedConc w (applySets fuel w ops).1 nid := by
  induction ops with
  | nil =>
      intro w nid hD _ _
      exact detachedConc_refl w nid hD
  | cons p rest ih =>
      intro w nid hD hO hops
      simp only [applySets]
      rcases hset : sigSet fuel w p.1 p.2 with ⟨w1, e1⟩
      have h1 : DetachedConc w w1 nid := by
        have := (detachedRun fuel).2.2.1 w p.1 p.2 nid hD hO
          (hops p (List.mem_cons_self _ _))
        rw [hset] at this
        exact this
      cases e1 with
      | none =>
          simp only [andThen]
          refine detachedConc_trans h1 (ih w1 nid h1.1 ?_ ?_)
          · intro k hk
            rw [h1.2.2.2.1 k, h1.2.2.2.1 nid]
            exact hO k hk
          · intro q hq
            rw [h1.2.2.2.1 nid]
            exact hops q (List.mem_cons_of_mem _ hq)
      | some e =>
          simp only [andThen]
          exact h1

/-- C9: after `dispose()` on a computed signal, subsequent writes to its
former dependencies leave its value unchanged and trigger no recompute.
First conjunct: `dispose` detaches the node (its scheduler is removed from
every signal it could only have reached through its dependency set, and
its queue entries were absent) while touching no signal value and no run
log.  Second conjunct: from any detached state, any sequence of writes
that does not target the node's own backing signal preserves the backing
signal's value (what `get()`/`peek()` return) and the node's run count.
Third conjunct: in the doubled scenario, `s.set(10)` and `s.set(11)` after
`doubled.dispose()` complete without error, leave `doubled` at `4`, and the
compute function has still run exactly once. -/
theorem c9_dispose_freezes_value :
    (∀ (w : World) (nid : NodeId),
        (∀ s, s < w.sigs.length →
          Sub.sched nid ∈ (sigAt w s).subs → s ∈ (nodeAt w nid).deps) →
        QItem.runNode nid ∉ w.batchQueue →
        QItem.wrap (.sched nid) ∉ w.batchQueue →
        Detached (disposeComputed w nid) nid ∧
        (∀ s, (sigAt (disposeComputed w nid) s).value = (sigAt w s).value) ∧
        (disposeComputed w nid).runs = w.runs) ∧
    (∀ (fuel : Nat) (ops : List (SigId × Val)) (w : World) (nid : NodeId),
        Detached w nid → OutSep w nid →
        (∀ p ∈ ops, p.1 ≠ (nodeAt w nid).out) →
        (sigAt (applySets fuel w ops).1 (nodeAt w nid).out).value
            = (sigAt w (nodeAt w nid).out).value ∧
        (applySets fuel w ops).1.runs.count nid = w.runs.count nid) ∧
    ((sigAt doub1.1 1).value = .vint 4 ∧ doub1.1.runs = [0] ∧
     (sigAt doub2.1 1).value = .vint 4 ∧
     doub3.2 = none ∧ (sigAt doub3.1 1).value = .vint 4 ∧
     (sigAt doub3.1 0).value = .vint 10 ∧
     doub4.2 = none ∧ (sigAt doub4.1 1).value = .vint 4 ∧
     (sigAt doub4.1 0).value = .vint 11 ∧
     doub4.1.runs = [0]) := by
  refine ⟨?_, ?_, ?_⟩
  · intro w nid hwire hq1 hq2
    refine ⟨⟨?_, ?_, ?_⟩, ?_, ?_⟩
    · intro s
      show Sub.sched nid ∉ (sigAt (withNode _ nid _) s).subs
      rw [sigAt_withNode]
      intro hmem
      have h2 := (mem_mapSubsAll_del (Sub.sched nid)
        (nodeAt w nid).deps w s).1 hmem
      by_cases hlt : s < w.sigs.length
      · exact h2.2 (hwire s hlt h2.1)
      · rw [sigAt_ge w s (Nat.le_of_not_lt hlt)] at h2
        exact absurd h2.1 (by simp [defaultSig])
    · intro hmem
      have h2 : QItem.runNode nid ∈ (mapSubsAll
          (fun l => delSet l (.sched nid)) w (nodeAt w nid).deps).batchQueue :=
        hmem
      rw [(mapSubsAll_fields _ _ w).2.2.2.2.1] at h2
      exact hq1 h2
    · intro hmem
      have h2 : QItem.wrap (.sched nid) ∈ (mapSubsAll
          (fun l => delSet l (.sched nid)) w (nodeAt w nid).deps).batchQueue :=
        hmem
      rw [(mapSubsAll_fields _ _ w).2.2.2.2.1] at h2
      exact hq2 h2
    · intro s
      show (sigAt (withNode _ nid _) s).value = (sigAt w s).value
      rw [sigAt_withNode]
      exact (mapSubsAll_value_name _ _ w s).1
    · show (mapSubsAll (fun l => delSet l (.sched nid)) w
        (nodeAt w nid).deps).runs = w.runs
      exact (mapSubsAll_fields _ _ w).2.2.2.2.2.2.2.2.1
  · intro fuel ops w nid hD hO hops
    have h := applySets_detached fuel ops w nid hD hO hops
    exact ⟨h.2.1, h.2.2.1⟩
  · simp [doub4, doub3, doub2, doub1, disposeComputed, andThen,
      mkComputed, runComputed, sigSet, notifySubs, invokeSub, eval, sigGet,
      rewire, mapSubsAll, finallyRestore, mkSignal, emptyWorld, addSet,
      delSet, findWrap, Val.truthy, enqueueWrappers, sigAt, nodeAt, onceAt,
      withSig, withNode, withOnce, defaultSig, defaultNode, defaultOnce]

theorem c9_witness :
    Detached (disposeComputed doub1.1 0) 0 ∧
    (sigAt (applySets 20 (disposeComputed doub1.1 0)
        [(0, .vint 10), (0, .vint 11)]).1
        (nodeAt (disposeComputed doub1.1 0) 0).out).value
      = (sigAt (disposeComputed doub1.1 0)
          (nodeAt (disposeComputed doub1.1 0) 0).out).value ∧
    (applySets 20 (disposeComputed doub1.1 0)
        [(0, .vint 10), (0, .vint 11)]).1.runs.count 0
      = (disposeComputed doub1.1 0).runs.count 0 := by
  have hout : (nodeAt (disposeComputed doub1.1 0) 0).out = 1 := by
    simp [doub1, disposeComputed, andThen, mkComputed, runComputed, sigSet,
      notifySubs, invokeSub, eval, sigGet, rewire, mapSubsAll,
      finallyRestore, mkSignal, emptyWorld, addSet, delSet, findWrap,
      Val.truthy, enqueueWrappers, sigAt, nodeAt, onceAt, withSig, withNode,
      withOnce, defaultSig, defaultNode, defaultOnce]
  have hlen : (disposeComputed doub1.1 0).nodes.length = 1 := by
    simp [doub1, disposeComputed, andThen, mkComputed, runComputed, sigSet,
      notifySubs, invokeSub, eval, sigGet, rewire, mapSubsAll,
      finallyRestore, mkSignal, emptyWorld, addSet, delSet, findWrap,
      Val.truthy, enqueueWrappers, sigAt, nodeAt, onceAt, withSig, withNode,
      withOnce, defaultSig, defaultNode, defaultOnce]
  have hslen : doub1.1.sigs.length = 2 := by
    simp [doub1, andThen, mkComputed, runComputed, sigSet, notifySubs,
      invokeSub, eval, sigGet, rewire, mapSubsAll, finallyRestore, mkSignal,
      emptyWorld, addSet, delSet, findWrap, Val.truthy, enqueueWrappers,
      sigAt, nodeAt, onceAt, withSig, withNode, withOnce, defaultSig,
      defaultNode, defaultOnce]
  have hd := c9_dispose_freezes_value.1 doub1.1 0
    (by
      intro s hs hmem
      rw [hslen] at hs
      interval_cases s
      · simp [doub1, andThen, mkComputed, runComputed, sigSet, notifySubs,
          invokeSub, eval, sigGet, rewire, mapSubsAll, finallyRestore,
          mkSignal, emptyWorld, addSet, delSet, findWrap, Val.truthy,
          enqueueWrappers, sigAt, nodeAt, onceAt, withSig, withNode,
          withOnce, defaultSig, defaultNode, defaultOnce]
      · exfalso
        revert hmem
        simp [doub1, andThen, mkComputed, runComputed, sigSet, notifySubs,
          invokeSub, eval, sigGet, rewire, mapSubsAll, finallyRestore,
          mkSignal, emptyWorld, addSet, delSet, findWrap, Val.truthy,
          enqueueWrappers, sigAt, nodeAt, onceAt, withSig, withNode,
          withOnce, defaultSig, defaultNode, defaultOnce])
    (by
      simp [doub1, andThen, mkComputed, runComputed, sigSet, notifySubs,
        invokeSub, eval, sigGet, rewire, mapSubsAll, finallyRestore,
        mkSignal, emptyWorld, addSet, delSet, findWrap, Val.truthy,
        enqueueWrappers, sigAt, nodeAt, onceAt, withSig, withNode, withOnce,
        defaultSig, defaultNode, defaultOnce])
    (by
      simp [doub1, andThen, mkComputed, runComputed, sigSet, notifySubs,
        invokeSub, eval, sigGet, rewire, mapSubsAll, finallyRestore,
        mkSignal, emptyWorld, addSet, delSet, findWrap, Val.truthy,
        enqueueWrappers, sigAt, nodeAt, onceAt, withSig, withNode, withOnce,
        defaultSig, defaultNode, defaultOnce])
  have ho : OutSep (disposeComputed doub1.1 0) 0 := by
    intro m hm
    rw [hout]
    match m with
    | 0 => exact absurd rfl hm
    | m + 1 =>
        rw [nodeAt_ge _ _ (by rw [hlen]; exact Nat.succ_le_succ (Nat.zero_le m))]
        simp [defaultNode]
  have ha := c9_dispose_freezes_value.2.1 20 [(0, .vint 10), (0, .vint 11)]
    (disposeComputed doub1.1 0) 0 hd.1 ho (by rw [hout]; decide)
  exact ⟨hd.1, ha.1, ha.2⟩


end Microtastic

namespace Microtastic

theorem getD_append_lt {α : Type} (l l2 : List α) (i : Nat) (d : α)
    (h : i < l.length) : (l ++ l2).getD i d = l.getD i d := by
  rw [List.getD_eq_getElem?_getD, List.getD_eq_getElem?_getD,
    List.getElem?_append, if_pos h]

theorem getD_ge {α : Type} (l : List α) (i : Nat) (d : α)
    (h : l.length ≤ i) : l.getD i d = d := by
  simp [List.getD_eq_getElem?_getD, List.getElem?_eq_none h]

/-- A settle step never touches the token ledger, marks exactly its own
run settled, and either keeps `currentCancel` or clears it when it pointed
at the settling run's token. -/
theorem settleRun_fields (w : AsyncWorld) (tk : Nat) (o : AOutcome) :
    (settleRun w tk o).cancelled = w.cancelled ∧
    (settleRun w tk o).settled = w.settled.set tk true ∧
    ((settleRun w tk o).currentCancel = w.currentCancel ∨
      ((settleRun w tk o).currentCancel = none ∧ w.currentCancel = some tk)) := by
  cases hb : w.cancelled.getD tk false <;>
    cases o <;>
      simp only [settleRun, hb, Bool.false_eq_true, if_false, if_true] <;>
        (cases hcur : w.currentCancel with
          | none => simp
          | some t =>
              by_cases htk : t = tk
              · subst htk
                simp [hcur]
              · simp [hcur, htk])

/-- Settling a run whose token is already cancelled publishes nothing and
rewires nothing. -/
theorem settleRun_cancelled (w : AsyncWorld) (tk : Nat) (o : AOutcome)
    (h : w.cancelled.getD tk false = true) :
    (settleRun w tk o).value = w.value ∧
    (settleRun w tk o).deps = w.deps ∧
    (settleRun w tk o).wired = w.wired := by
  cases o <;>
    simp only [settleRun, h, if_true] <;>
      (cases hcur : w.currentCancel with
        | none => simp
        | some t =>
            by_cases htk : t = tk
            · subst htk
              simp [hcur]
            · simp [hcur, htk])

theorem aInv_start (w : AsyncWorld) (h : AInv w) : AInv (startRun w) := by
  obtain ⟨h1, h2, h3, h4⟩ := h
  cases hcc : w.currentCancel with
  | some t =>
      have ht : t + 1 = w.cancelled.length := h2 t hcc
      have hf : (startRun w).cancelled = (w.cancelled.set t true) ++ [false] ∧
          (startRun w).settled = w.settled ++ [false] ∧
          (startRun w).currentCancel = some (w.cancelled.set t true).length := by
        simp [startRun, hcc]
      refine ⟨?_, ?_, ?_, ?_⟩
      · intro u hu1 hu2
        rw [hf.1] at hu2
        rw [hf.1, hf.2.1]
        have hulen : u < w.cancelled.length := by
          simp only [List.length_append, List.length_set, List.length_cons,
            List.length_nil] at hu2
          omega
        rw [getD_append_lt (w.cancelled.set t true) [false] u false
            (by rw [List.length_set]; exact hulen),
          getD_append_lt w.settled [false] u false (by rw [h4]; exact hulen)]
        by_cases he : u = t
        · subst he
          right
          exact getD_set_self _ _ _ _ hulen
        · rw [getD_set_ne _ _ _ _ _ (fun e => he e.symm)]
          have hu3 : u + 1 < w.cancelled.length := by omega
          exact h1 u hulen hu3
      · intro t2 hct
        rw [hf.2.2] at hct
        have : (w.cancelled.set t true).length = t2 := Option.some.inj hct
        rw [hf.1]
        simp only [List.length_append, List.length_set, List.length_cons,
          List.length_nil]
        rw [List.length_set] at this
        omega
      · intro hnone
        rw [hf.2.2] at hnone
        cases hnone
      · rw [hf.1, hf.2.1]
        simp [h4]
  | none =>
      have hf : (startRun w).cancelled = w.cancelled ++ [false] ∧
          (startRun w).settled = w.settled ++ [false] ∧
          (startRun w).currentCancel = some w.cancelled.length := by
        simp [startRun, hcc]
      refine ⟨?_, ?_, ?_, ?_⟩
      · intro u hu1 hu2
        rw [hf.1] at hu2
        rw [hf.1, hf.2.1]
        have hulen : u < w.cancelled.length := by
          simp only [List.length_append, List.length_cons, List.length_nil]
            at hu2
          omega
        rw [getD_append_lt w.cancelled [false] u false hulen,
          getD_append_lt w.settled [false] u false (by rw [h4]; exact hulen)]
        exact h3 hcc u hulen
      · intro t2 hct
        rw [hf.2.2] at hct
        have := Option.some.inj hct
        rw [hf.1]
        simp only [List.length_append, List.length_cons, List.length_nil]
        omega
      · intro hnone
        rw [hf.2.2] at hnone
        cases hnone
      · rw [hf.1, hf.2.1]
        simp [h4]

theorem aInv_settle (w : AsyncWorld) (tk : Nat) (o : AOutcome) (h : AInv w) :
    AInv (settleRun w tk o) := by
  obtain ⟨h1, h2, h3, h4⟩ := h
  obtain ⟨hc, hs, hcur⟩ := settleRun_fields w tk o
  have hmono : ∀ u,
      (w.settled.getD u false = true ∨ w.cancelled.getD u false = true) →
      ((w.settled.set tk true).getD u false = true ∨
        w.cancelled.getD u false = true) := by
    intro u hu
    rcases hu with hu | hu
    · left
      by_cases he : tk = u
      · subst he
        have hlt : tk < w.settled.length := by
          by_contra hge
          rw [getD_ge _ _ _ (Nat.le_of_not_lt hge)] at hu
          cases hu
        exact getD_set_self _ _ _ _ hlt
      · rw [getD_set_ne _ _ _ _ _ he]
        exact hu
    · right
      exact hu
  refine ⟨?_, ?_, ?_, ?_⟩
  · intro u hu1 hu2
    rw [hc] at hu1 hu2
    rw [hc, hs]
    exact hmono u (h1 u hu1 hu2)
  · intro t hct
    rw [hc]
    rcases hcur with hcur | ⟨hnone, -⟩
    · rw [hcur] at hct
      exact h2 t hct
    · rw [hnone] at hct
      cases hct
  · intro hn
    intro u hu
    rw [hc] at hu
    rw [hc, hs]
    rcases hcur with hcur | ⟨-, hsome⟩
    · rw [hcur] at hn
      exact hmono u (h3 hn u hu)
    · have htk := h2 tk hsome
      by_cases he : u = tk
      · subst he
        left
        exact getD_set_self _ _ _ _ (by omega)
      · have hu3 : u + 1 < w.cancelled.length := by omega
        exact hmono u (h1 u hu hu3)
  · rw [hc, hs]
    simp [h4]

theorem aInv_dispose (w : AsyncWorld) (h : AInv w) : AInv (disposeAsync w) := by
  obtain ⟨h1, h2, h3, h4⟩ := h
  cases hcc : w.currentCancel with
  | some t =>
      have ht : t + 1 = w.cancelled.length := h2 t hcc
      have hf : (disposeAsync w).cancelled = w.cancelled.set t true ∧
          (disposeAsync w).settled = w.settled ∧
          (disposeAsync w).currentCancel = some t := by
        simp [disposeAsync, hcc]
      refine ⟨?_, ?_, ?_, ?_⟩
      · intro u hu1 hu2
        rw [hf.1] at hu1 hu2
        rw [List.length_set] at hu1 hu2
        rw [hf.1, hf.2.1]
        by_cases he : u = t
        · subst he
          right
          exact getD_set_self _ _ _ _ hu1
        · rw [getD_set_ne _ _ _ _ _ (fun e => he e.symm)]
          exact h1 u hu1 hu2
      · intro t2 hct
        rw [hf.2.2] at hct
        have := Option.some.inj hct
        rw [hf.1, List.length_set]
        omega
      · intro hnone
        rw [hf.2.2] at hnone
        cases hnone
      · rw [hf.1, hf.2.1, List.length_set]
        exact h4
  | none =>
      have hf : (disposeAsync w).cancelled = w.cancelled ∧
          (disposeAsync w).settled = w.settled ∧
          (disposeAsync w).currentCancel = none := by
        simp [disposeAsync, hcc]
      refine ⟨?_, ?_, ?_, ?_⟩
      · intro u hu1 hu2
        rw [hf.1] at hu1 hu2
        rw [hf.1, hf.2.1]
        exact h1 u hu1 hu2
      · intro t2 hct
        rw [hf.2.2] at hct
        cases hct
      · intro _ u hu
        rw [hf.1] at hu
        rw [hf.1, hf.2.1]
        exact h3 hcc u hu
      · rw [hf.1, hf.2.1]
        exact h4

theorem aInv_init : AInv asyncInit := by
  refine ⟨?_, ?_, ?_, rfl⟩
  · intro t ht _
    simp [asyncInit] at ht
  · intro t hct
    simp [asyncInit] at hct
  · intro _ t ht
    simp [asyncInit] at ht

theorem aInv_exec (events : List AEvent) :
    ∀ w : AsyncWorld, AInv w → AInv (aExec w events) := by
  induction events with
  | nil => intro w h; exact h
  | cons e rest ih =>
      intro w h
      cases e with
      | start => exact ih _ (aInv_start w h)
      | settle tk o => exact ih _ (aInv_settle w tk o h)
      | dispose => exact ih _ (aInv_dispose w h)

/-- C3: starting a new run cancels the previous run's token; a run whose
token is cancelled by the time its promise settles publishes neither
result nor error and rewires nothing; in every reachable state a
superseded run (one whose token is not the most recent) that has not yet
settled has a cancelled token, so its eventual settling is inert — only
the most recently started, non-superseded run can ever publish. -/
theorem c3_stale_run_never_publishes :
    (∀ (w : AsyncWorld) (t : Nat), w.currentCancel = some t →
        t < w.cancelled.length →
        (startRun w).cancelled.getD t false = true) ∧
    (∀ (w : AsyncWorld) (tk : Nat) (o : AOutcome),
        w.cancelled.getD tk false = true →
        (settleRun w tk o).value = w.value ∧
        (settleRun w tk o).deps = w.deps ∧
        (settleRun w tk o).wired = w.wired) ∧
    (∀ (w : AsyncWorld) (tk : Nat) (o : AOutcome),
        AInv w → tk + 1 < w.cancelled.length →
        w.settled.getD tk false = false →
        (settleRun w tk o).value = w.value ∧
        (settleRun w tk o).deps = w.deps ∧
        (settleRun w tk o).wired = w.wired) ∧
    (∀ events : List AEvent, AInv (aExec asyncInit events)) := by
  refine ⟨?_, ?_, ?_, ?_⟩
  · intro w t hct hlt
    simp only [startRun, hct]
    rw [getD_append_lt _ _ _ _ (by rw [List.length_set]; exact hlt)]
    exact getD_set_self _ _ _ _ hlt
  · intro w tk o h
    exact settleRun_cancelled w tk o h
  · intro w tk o hinv hlt hset
    have hcan : w.cancelled.getD tk false = true := by
      rcases hinv.1 tk (by omega) hlt with hx | hx
      · rw [hset] at hx
        cases hx
      · exact hx
    exact settleRun_cancelled w tk o hcan
  · intro events
    exact aInv_exec events asyncInit aInv_init

theorem c3_witness :
    (startRun (startRun asyncInit)).cancelled.getD 0 false = true ∧
    (settleRun (aExec asyncInit [.start, .start]) 0 (.ok (.vint 1) [2])).value
      = (aExec asyncInit [.start, .start]).value ∧
    (settleRun (aExec asyncInit [.start, .start]) 0 (.ok (.vint 1) [2])).deps
      = (aExec asyncInit [.start, .start]).deps ∧
    (settleRun (aExec asyncInit [.start, .start]) 0 (.ok (.vint 1) [2])).wired
      = (aExec asyncInit [.start, .start]).wired := by
  refine ⟨?_, ?_⟩
  · exact c3_stale_run_never_publishes.1 (startRun asyncInit) 0 rfl
      (by decide)
  · exact c3_stale_run_never_publishes.2.2.1
      (aExec asyncInit [.start, .start]) 0 (.ok (.vint 1) [2])
      (c3_stale_run_never_publishes.2.2.2 [.start, .start])
      (by decide) (by decide)

/-- C5: when a run's promise rejects while its token is uncancelled, the
published value has status "error", the error, loading off, and `data`
preserved from before the settle; when it resolves uncancelled, the
published value has status "resolved", the new data and a cleared error;
a restart keeps `data` through its pending publication; and the concrete
success-then-failure trace ends with `data` still "success". -/
theorem c5_error_keeps_last_data :
    (∀ (w : AsyncWorld) (tk : Nat) (e : String),
        w.cancelled.getD tk false = false →
        (settleRun w tk (.err e)).value =
          { status := "error", data := w.value.data, error := some e,
            loading := false } ∧
        (settleRun w tk (.err e)).deps = w.deps ∧
        (settleRun w tk (.err e)).wired = w.wired) ∧
    (∀ (w : AsyncWorld) (tk : Nat) (v : Val) (reads : List SigId),
        w.cancelled.getD tk false = false →
        (settleRun w tk (.ok v reads)).value =
          { status := "resolved", data := some v, error := none,
            loading := false }) ∧
    (∀ w : AsyncWorld, (startRun w).value.data = w.value.data) ∧
    (aExec asyncInit [.start, .settle 0 (.ok (.vstr "success") []),
        .start, .settle 1 (.err "boom")]).value =
      { status := "error", data := some (.vstr "success"),
        error := some "boom", loading := false } := by
  refine ⟨?_, ?_, ?_, ?_⟩
  · intro w tk e h
    simp only [settleRun, h, Bool.false_eq_true, if_false]
    cases hcur : w.currentCancel with
    | none => simp
    | some t =>
        by_cases htk : t = tk
        · subst htk
          simp [hcur]
        · simp [hcur, htk]
  · intro w tk v reads h
    simp only [settleRun, h, Bool.false_eq_true, if_false]
    cases hcur : w.currentCancel with
    | none => simp
    | some t =>
        by_cases htk : t = tk
        · subst htk
          simp [hcur]
        · simp [hcur, htk]
  · intro w
    cases hcc : w.currentCancel <;> simp [startRun, hcc]
  · rfl

theorem c5_witness :
    (settleRun (startRun asyncInit) 0 (.err "boom")).value =
      { status := "error", data := (startRun asyncInit).value.data,
        error := some "boom", loading := false } ∧
    (settleRun (startRun asyncInit) 0 (.ok (.vint 7) [1])).value =
      { status := "resolved", data := some (.vint 7), error := none,
        loading := false } :=
  ⟨(c5_error_keeps_last_data.1 (startRun asyncInit) 0 "boom" rfl).1,
   c5_error_keeps_last_data.2.1 (startRun asyncInit) 0 (.vint 7) [1] rfl⟩

end Microtastic
